import Mathlib

set_option autoImplicit false
set_option maxHeartbeats 1000000

/- Verification of darktable's pixelpipe cache (src/develop/pixelpipe_cache.c).

   The development shallowly embeds the two components of that file:
   the hash engine (dt_dev_pixelpipe_cache_basichash / _fullhash) and the
   cache store (init / get / flush / flush_all_but / invalidate / reweight /
   checkmem / available), and proves or refutes the specification's claims
   about them.  Machine 64-bit values are modelled as `Nat` reduced mod `W`;
   `char` bytes are sign-extended before being folded, as on the reference
   platform.  The fallible aligned allocator is passed in explicitly as an
   `Option`-valued oracle. -/

/-- The 64-bit word modulus. -/
def W : Nat := 2 ^ 64

/-- The all-ones sentinel `(uint64_t)(-1)` marking an unassigned hash. -/
def sent : Nat := W - 1

/-- One djb2 update `hash = ((hash << 5) + hash) ^ x` at uint64 width.
    `x` is already a 64-bit value. -/
def step (h x : Nat) : Nat := (h * 33 % W) ^^^ x

/-- Sign extension of one byte to its 64-bit two's-complement pattern:
    the fold reads the structs through a (signed) `char` pointer. -/
def sext (b : Nat) : Nat := if b < 128 then b else W - 256 + b

/-- Fold raw struct bytes into a running hash, as the `pstr`/`str` loops do. -/
def foldBytes (h : Nat) (bs : List Nat) : Nat :=
  bs.foldl (fun a b => step a (sext b)) h

/-- Little-endian bytes of one 32-bit `int` pattern. -/
def bytes4 (x : Nat) : List Nat :=
  [x % 256, x / 256 % 256, x / 65536 % 256, x / 16777216 % 256]

/-- One pipeline node as the hash engine sees it: its precomputed content
    hash `piece->hash`, the (negated) gui-module filter predicate from
    `dt_dev_pixelpipe_cache_basichash`'s `if`, and the color-picker sample
    bytes folded after the node's hash (empty when no picker is active). -/
structure Node where
  hash : Nat
  visible : Bool
  pick : List Nat
deriving DecidableEq

/-- Default node used with `List.getD`. -/
def dNode : Node := ⟨0, true, []⟩

/-- The seed of `dt_dev_pixelpipe_cache_basichash`: djb2 over the raw bytes
    of `hashing_pipemode[3] = (imgid, pipe->type, pipe->mask_display)`. -/
def seedHash (imgid ptype maskd : Nat) : Nat :=
  foldBytes 5381 (bytes4 imgid ++ bytes4 ptype ++ bytes4 maskd)

/-- Per-node contribution of the main loop of `..._cache_basichash`: skipped
    entirely when the gui-module filter masks the node, otherwise the node's
    hash then any active color-picker sample bytes are folded in. -/
def nodeFold (h : Nat) (nd : Node) : Nat :=
  if nd.visible then foldBytes (step h nd.hash) nd.pick else h

/-- `dt_dev_pixelpipe_cache_basichash(imgid, pipe, module)`: seed from the
    pipe-mode triple, then fold nodes `0 .. upTo-1` (stopping early when the
    node list ends, like `k < module && pieces`). -/
def basichash (imgid ptype maskd : Nat) (nodes : List Node) (upTo : Nat) : Nat :=
  (nodes.take upTo).foldl nodeFold (seedHash imgid ptype maskd)

/-- `dt_dev_pixelpipe_cache_fullhash`: returns the basic hash and the basic
    hash with the raw ROI bytes folded on top. -/
def fullhash (imgid ptype maskd : Nat) (nodes : List Node) (upTo : Nat)
    (roi : List Nat) : Nat × Nat :=
  let b := basichash imgid ptype maskd nodes upTo
  (b, foldBytes b roi)

/-- Well-formedness of a node's inputs: the contribution is a 64-bit value
    and picker samples are bytes. -/
def NodeWf (nd : Node) : Prop := nd.hash < W ∧ ∀ b ∈ nd.pick, b < 256

instance (nd : Node) : Decidable (NodeWf nd) := by unfold NodeWf; infer_instance

theorem w_pos : 0 < W := by decide

theorem xor_lt64 {x y : Nat} (hx : x < W) (hy : y < W) : x ^^^ y < W :=
  Nat.bitwise_lt hx hy

theorem sext_lt {b : Nat} (hb : b < 256) : sext b < W := by
  have h256 : 256 ≤ W := by decide
  unfold sext; split <;> omega

theorem sext_inj {b1 b2 : Nat} (h1 : b1 < 256) (h2 : b2 < 256)
    (he : sext b1 = sext b2) : b1 = b2 := by
  have h256 : 256 ≤ W := by decide
  unfold sext at he; split at he <;> split at he <;> omega

theorem step_lt {h x : Nat} (hx : x < W) : step h x < W :=
  xor_lt64 (Nat.mod_lt _ w_pos) hx

theorem step_injL {h x1 x2 : Nat} (he : step h x1 = step h x2) : x1 = x2 :=
  Nat.xor_right_inj.mp he

theorem step_injR {h1 h2 x : Nat} (h1W : h1 < W) (h2W : h2 < W)
    (he : step h1 x = step h2 x) : h1 = h2 := by
  have e1 : h1 * 33 % W = h2 * 33 % W := Nat.xor_left_inj.mp he
  have hco : Nat.gcd W 33 = 1 := by decide
  have e2 : h1 ≡ h2 [MOD W] := Nat.ModEq.cancel_right_of_coprime hco e1
  have := e2.eq_of_lt_of_lt h1W h2W
  exact this

theorem foldBytes_nil (h : Nat) : foldBytes h [] = h := rfl

theorem foldBytes_cons (h b : Nat) (bs : List Nat) :
    foldBytes h (b :: bs) = foldBytes (step h (sext b)) bs := rfl

theorem foldBytes_append (h : Nat) (l1 l2 : List Nat) :
    foldBytes h (l1 ++ l2) = foldBytes (foldBytes h l1) l2 :=
  List.foldl_append _ _ _ _

theorem foldBytes_lt : ∀ (bs : List Nat) (h : Nat), h < W →
    (∀ b ∈ bs, b < 256) → foldBytes h bs < W
  | [], h, hW, _ => hW
  | b :: bs, h, hW, hbs => by
    rw [foldBytes_cons]
    exact foldBytes_lt bs _ (step_lt (sext_lt (hbs b (by simp))))
      (fun x hx => hbs x (by simp [hx]))

theorem foldBytes_injR : ∀ (bs : List Nat) (h1 h2 : Nat), h1 < W → h2 < W →
    (∀ b ∈ bs, b < 256) → foldBytes h1 bs = foldBytes h2 bs → h1 = h2
  | [], h1, h2, _, _, _, he => he
  | b :: bs, h1, h2, h1W, h2W, hbs, he => by
    rw [foldBytes_cons, foldBytes_cons] at he
    have hb : b < 256 := hbs b (by simp)
    have := foldBytes_injR bs _ _ (step_lt (sext_lt hb)) (step_lt (sext_lt hb))
      (fun x hx => hbs x (by simp [hx])) he
    exact step_injR h1W h2W this

theorem nodeFold_lt {h : Nat} {nd : Node} (hW : h < W) (hnd : NodeWf nd) :
    nodeFold h nd < W := by
  unfold nodeFold; split
  · exact foldBytes_lt _ _ (step_lt hnd.1) hnd.2
  · exact hW

theorem nodeFold_injR {h1 h2 : Nat} {nd : Node} (h1W : h1 < W) (h2W : h2 < W)
    (hnd : NodeWf nd) (he : nodeFold h1 nd = nodeFold h2 nd) : h1 = h2 := by
  unfold nodeFold at he; split at he
  · have := foldBytes_injR nd.pick _ _ (step_lt hnd.1) (step_lt hnd.1) hnd.2 he
    exact step_injR h1W h2W this
  · exact he

theorem nodeFold_diff {h : Nat} {nd nd' : Node} (_hW : h < W)
    (hnd : NodeWf nd) (hnd' : NodeWf nd')
    (hv : nd.visible = true) (hv' : nd'.visible = true)
    (hp : nd'.pick = nd.pick) (hne : nd'.hash ≠ nd.hash) :
    nodeFold h nd' ≠ nodeFold h nd := by
  unfold nodeFold
  rw [hv, hv', hp, if_pos rfl, if_pos rfl]
  intro he
  have := foldBytes_injR nd.pick _ _ (step_lt hnd'.1) (step_lt hnd.1) hnd.2 he
  exact hne (step_injL this)

theorem foldNodes_lt : ∀ (nds : List Node) (h : Nat), h < W →
    (∀ nd ∈ nds, NodeWf nd) → nds.foldl nodeFold h < W
  | [], h, hW, _ => hW
  | nd :: nds, h, hW, hnds => by
    rw [List.foldl_cons]
    exact foldNodes_lt nds _ (nodeFold_lt hW (hnds nd (by simp)))
      (fun x hx => hnds x (by simp [hx]))

theorem foldNodes_injR : ∀ (nds : List Node) (h1 h2 : Nat), h1 < W → h2 < W →
    (∀ nd ∈ nds, NodeWf nd) →
    nds.foldl nodeFold h1 = nds.foldl nodeFold h2 → h1 = h2
  | [], h1, h2, _, _, _, he => he
  | nd :: nds, h1, h2, h1W, h2W, hnds, he => by
    rw [List.foldl_cons, List.foldl_cons] at he
    have hnd : NodeWf nd := hnds nd (by simp)
    have := foldNodes_injR nds _ _ (nodeFold_lt h1W hnd) (nodeFold_lt h2W hnd)
      (fun x hx => hnds x (by simp [hx])) he
    exact nodeFold_injR h1W h2W hnd this

theorem bytes4_lt (x : Nat) : ∀ b ∈ bytes4 x, b < 256 := by
  intro b hb
  simp only [bytes4, List.mem_cons, List.not_mem_nil, or_false] at hb
  rcases hb with h | h | h | h <;> subst h <;> exact Nat.mod_lt _ (by decide)

theorem seedHash_lt (imgid ptype maskd : Nat) : seedHash imgid ptype maskd < W := by
  unfold seedHash
  refine foldBytes_lt _ _ (by decide) ?_
  intro b hb
  simp only [List.mem_append] at hb
  rcases hb with (h | h) | h
  · exact bytes4_lt _ _ h
  · exact bytes4_lt _ _ h
  · exact bytes4_lt _ _ h

theorem basichash_lt (imgid ptype maskd : Nat) (nodes : List Node) (upTo : Nat)
    (hwf : ∀ nd ∈ nodes, NodeWf nd) : basichash imgid ptype maskd nodes upTo < W :=
  foldNodes_lt _ _ (seedHash_lt imgid ptype maskd)
    (fun nd hnd => hwf nd (List.take_subset _ _ hnd))

/- List index helpers used to split a node list at a changed index. -/

theorem take_set_of_le {α : Type} : ∀ (l : List α) (i u : Nat) (a : α), u ≤ i →
    (l.set i a).take u = l.take u
  | [], _, _, _, _ => rfl
  | _ :: _, 0, u, _, hu => by
    have h0 : u = 0 := Nat.le_zero.mp hu
    subst h0; rfl
  | x :: t, i + 1, u, a, hu => by
    cases u with
    | zero => rfl
    | succ u =>
      simp only [List.set, List.take]
      rw [take_set_of_le t i u a (Nat.le_of_succ_le_succ hu)]

theorem set_decomp {α : Type} : ∀ (l : List α) (i : Nat) (a : α), i < l.length →
    l.set i a = l.take i ++ a :: l.drop (i + 1)
  | [], i, _, hi => by simp at hi
  | x :: t, 0, a, _ => rfl
  | x :: t, i + 1, a, hi => by
    simp only [List.set, List.take, List.drop, List.cons_append]
    rw [set_decomp t i a (Nat.lt_of_succ_lt_succ hi)]

theorem self_decomp {α : Type} (d : α) : ∀ (l : List α) (i : Nat), i < l.length →
    l = l.take i ++ l.getD i d :: l.drop (i + 1)
  | [], i, hi => by simp at hi
  | x :: t, 0, _ => rfl
  | x :: t, i + 1, hi => by
    simp only [List.take, List.getD, List.get?, List.drop, List.cons_append]
    exact congrArg (x :: ·) (self_decomp d t i (Nat.lt_of_succ_lt_succ hi))

theorem take_decomp {α : Type} : ∀ (A : List α) (y : α) (B : List α) (u : Nat),
    A.length < u → (A ++ y :: B).take u = A ++ y :: B.take (u - A.length - 1)
  | [], y, B, u, hu => by
    cases u with
    | zero => simp at hu
    | succ u => simp [List.take]
  | a :: A, y, B, u, hu => by
    cases u with
    | zero => simp at hu
    | succ u =>
      show a :: ((A ++ y :: B).take u)
        = a :: (A ++ y :: B.take (u + 1 - (A.length + 1) - 1))
      rw [take_decomp A y B u (by simpa using hu)]
      have harg : u - A.length - 1 = u + 1 - (A.length + 1) - 1 := by omega
      rw [harg]

/-- C2: replacing only node `i`'s per-node hash contribution (same visibility,
    same picker bytes) leaves `BasicHash(..., upTo)` unchanged for every
    `upTo ≤ i` and changes it for every `upTo > i`. -/
theorem C2_basichash_node_sensitivity
    (imgid ptype maskd : Nat) (nodes : List Node) (i u : Nat) (nd' : Node)
    (hi : i < nodes.length)
    (hwf : ∀ nd ∈ nodes, NodeWf nd) (hwf' : NodeWf nd')
    (hvis : (nodes.getD i dNode).visible = true) (hvis' : nd'.visible = true)
    (hpick : nd'.pick = (nodes.getD i dNode).pick)
    (hne : nd'.hash ≠ (nodes.getD i dNode).hash) :
    (u ≤ i → basichash imgid ptype maskd (nodes.set i nd') u
      = basichash imgid ptype maskd nodes u)
    ∧ (i < u → basichash imgid ptype maskd (nodes.set i nd') u
      ≠ basichash imgid ptype maskd nodes u) := by
  constructor
  · intro hu
    unfold basichash
    rw [take_set_of_le nodes i u nd' hu]
  · intro hu
    have hwfnd : NodeWf (nodes.getD i dNode) := by
      rw [List.getD_eq_getElem nodes dNode hi]
      exact hwf _ (List.getElem_mem hi)
    have hAlen : (nodes.take i).length = i := by
      rw [List.length_take]
      exact Nat.min_eq_left (Nat.le_of_lt hi)
    unfold basichash
    rw [set_decomp nodes i nd' hi, take_decomp _ _ _ u (by rw [hAlen]; exact hu)]
    conv_rhs =>
      rw [self_decomp dNode nodes i hi, take_decomp _ _ _ u (by rw [hAlen]; exact hu)]
    rw [List.foldl_append, List.foldl_append, List.foldl_cons, List.foldl_cons]
    intro he
    have hseed := seedHash_lt imgid ptype maskd
    have hwfA : ∀ nd ∈ nodes.take i, NodeWf nd :=
      fun nd hnd => hwf nd (List.take_subset _ _ hnd)
    have hwfT : ∀ nd ∈ (nodes.drop (i + 1)).take (u - (nodes.take i).length - 1),
        NodeWf nd :=
      fun nd hnd => hwf nd (List.drop_subset _ _ (List.take_subset _ _ hnd))
    have hAW : (nodes.take i).foldl nodeFold (seedHash imgid ptype maskd) < W :=
      foldNodes_lt _ _ hseed hwfA
    have heq := foldNodes_injR _ _ _ (nodeFold_lt hAW hwf') (nodeFold_lt hAW hwfnd)
      hwfT he
    exact nodeFold_diff hAW hwfnd hwf' hvis hvis' hpick hne heq

/-- Closed instance of `C2_basichash_node_sensitivity` at a concrete
    two-node list with node 0's contribution changed. -/
theorem C2_witness :
    (basichash 0 0 0 ([⟨1, true, []⟩, ⟨2, true, []⟩].set 0 ⟨3, true, []⟩) 0
      = basichash 0 0 0 [⟨1, true, []⟩, ⟨2, true, []⟩] 0)
    ∧ (basichash 0 0 0 ([⟨1, true, []⟩, ⟨2, true, []⟩].set 0 ⟨3, true, []⟩) 2
      ≠ basichash 0 0 0 [⟨1, true, []⟩, ⟨2, true, []⟩] 2) :=
  ⟨(C2_basichash_node_sensitivity 0 0 0 [⟨1, true, []⟩, ⟨2, true, []⟩] 0 0
      ⟨3, true, []⟩ (by decide) (by decide) (by decide) (by decide) (by decide)
      (by decide) (by decide)).1 (by decide),
   (C2_basichash_node_sensitivity 0 0 0 [⟨1, true, []⟩, ⟨2, true, []⟩] 0 2
      ⟨3, true, []⟩ (by decide) (by decide) (by decide) (by decide) (by decide)
      (by decide) (by decide)).2 (by decide)⟩

/-- C7 (amended): the basic-hash element of `FullHash` never depends on the
    ROI and equals `BasicHash` of the same inputs; moreover changing exactly
    one byte of the ROI block always changes the full hash. -/
theorem C7_roi_stability
    (imgid ptype maskd : Nat) (nodes : List Node) (upTo : Nat)
    (roi1 roi2 : List Nat) (hwf : ∀ nd ∈ nodes, NodeWf nd) :
    (fullhash imgid ptype maskd nodes upTo roi1).1
      = (fullhash imgid ptype maskd nodes upTo roi2).1
    ∧ (fullhash imgid ptype maskd nodes upTo roi1).1
      = basichash imgid ptype maskd nodes upTo
    ∧ (∀ (p t : List Nat) (b1 b2 : Nat), b1 < 256 → b2 < 256 → b1 ≠ b2 →
        (∀ x ∈ p, x < 256) → (∀ x ∈ t, x < 256) →
        (fullhash imgid ptype maskd nodes upTo (p ++ b1 :: t)).2
          ≠ (fullhash imgid ptype maskd nodes upTo (p ++ b2 :: t)).2) := by
  refine ⟨rfl, rfl, ?_⟩
  intro p t b1 b2 hb1 hb2 hne hp ht he
  unfold fullhash at he
  simp only [foldBytes_append, foldBytes_cons] at he
  have hbW := basichash_lt imgid ptype maskd nodes upTo hwf
  have hpW : foldBytes (basichash imgid ptype maskd nodes upTo) p < W :=
    foldBytes_lt _ _ hbW hp
  have := foldBytes_injR t _ _ (step_lt (sext_lt hb1)) (step_lt (sext_lt hb2)) ht he
  exact hne (sext_inj hb1 hb2 (Nat.xor_right_inj.mp this))

/-- Closed instance of `C7_roi_stability`: ROI-independence of the basic
    hash and single-byte ROI sensitivity at concrete inputs. -/
theorem C7_witness :
    (fullhash 0 0 0 [] 0 [1, 2, 3]).1 = (fullhash 0 0 0 [] 0 [4, 5]).1
    ∧ (fullhash 0 0 0 [] 0 [1, 2, 3]).1 = basichash 0 0 0 [] 0
    ∧ (fullhash 0 0 0 [] 0 ([9] ++ 7 :: [13])).2
      ≠ (fullhash 0 0 0 [] 0 ([9] ++ 8 :: [13])).2 := by
  have h := C7_roi_stability 0 0 0 [] 0 [1, 2, 3] [4, 5] (by decide)
  exact ⟨h.1, h.2.1, h.2.2 [9] [13] 7 8 (by decide) (by decide) (by decide)
    (by decide) (by decide)⟩

/-- C7 fails as literally stated: two different 20-byte ROI blocks can
    produce the same full hash (djb2 folding is not injective on equal-length
    byte blocks), so changing only the ROI need not change the full hash. -/
theorem C7_counterexample :
    ([0, 0, 0, 0, 0, 0, 0, 0, 0, 0, 0, 0, 0, 0, 0, 0, 0, 0, 0, 0] : List Nat)
      ≠ [0, 0, 0, 0, 0, 0, 0, 0, 0, 0, 0, 0, 0, 0, 0, 0, 0, 0, 2, 66]
    ∧ (fullhash 0 0 0 [] 0
        [0, 0, 0, 0, 0, 0, 0, 0, 0, 0, 0, 0, 0, 0, 0, 0, 0, 0, 0, 0]).2
      = (fullhash 0 0 0 [] 0
        [0, 0, 0, 0, 0, 0, 0, 0, 0, 0, 0, 0, 0, 0, 0, 0, 0, 0, 2, 66]).2 := by
  decide

/- ===== The cache store ===== -/

/-- One cacheline of `dt_dev_pixelpipe_cache_t`: the entries of the parallel
    arrays `data/size/dsc/basichash/hash/used/modname` at one index.  Buffers
    are identified by an abstract allocation id; `none` is the NULL pointer. -/
structure Line where
  data : Option Nat
  size : Nat
  dsc : Nat
  basichash : Nat
  hash : Nat
  used : Int
  name : Option Nat
deriving DecidableEq

/-- Default line used with `List.getD`; also the state `..._cache_init`
    gives every line before preallocation. -/
def dLine : Line := ⟨none, 0, 0, sent, sent, 1, none⟩

/-- `dt_dev_pixelpipe_cache_t`.  The `entries` field is `lines.length`. -/
structure Cache where
  memlimit : Nat
  allmem : Nat
  queries : Nat
  misses : Nat
  lines : List Line
deriving DecidableEq

/-- `VERY_OLD_CACHE_WEIGHT`. -/
def veryOld : Int := 1000

/-- `dt_dev_pixelpipe_cache_init(cache, entries, size, limit)`.  The aligned
    allocator is an oracle giving the fresh buffer id for line `k`, or `none`
    on allocation failure.  Returns the cache and the init success flag:
    with `size = 0` lines stay empty; otherwise either every line gets a
    preallocated buffer of `size` bytes, or (first failure) everything is
    freed again and the call reports failure. -/
def init (entries size limit : Nat) (alloc : Nat → Option Nat) : Cache × Bool :=
  let base : Cache := ⟨limit, 0, 0, 0, List.replicate entries dLine⟩
  if size = 0 then (base, true)
  else if (List.range entries).all (fun k => (alloc k).isSome) then
    ({ base with
        allmem := entries * size,
        lines := (List.range entries).map
          (fun k => { dLine with data := alloc k, size := size }) }, true)
  else (base, false)

/-- `dt_dev_pixelpipe_cache_available(cache, hash, size)`. -/
def available (c : Cache) (h s : Nat) : Bool :=
  c.lines.any (fun l => l.hash = h && l.size = s)

/-- `dt_dev_pixelpipe_cache_flush`. -/
def flush (c : Cache) : Cache :=
  { c with
    queries := c.queries % 2,
    misses := c.queries % 2,
    lines := c.lines.map
      (fun l => { l with basichash := sent, hash := sent, used := veryOld }) }

/-- `dt_dev_pixelpipe_cache_flush_all_but(cache, basichash)`. -/
def flushAllBut (c : Cache) (bh : Nat) : Cache :=
  { c with lines := c.lines.map (fun l =>
      if l.basichash = bh then l
      else { l with basichash := sent, hash := sent, used := veryOld }) }

/-- `dt_dev_pixelpipe_cache_reweight(pipe, data, size)`; `avoiding` is the
    `mask_display & (PASSTHRU | ANY)` test on the pipe. -/
def reweight (c : Cache) (p : Option Nat) (s : Nat) (avoiding : Bool) : Cache :=
  if avoiding then c
  else { c with lines := c.lines.map (fun l =>
    if l.data = p ∧ s = l.size then { l with used := -(c.lines.length : Int) }
    else l) }

/-- `dt_dev_pixelpipe_cache_invalidate(cache, data)`. -/
def invalidate (c : Cache) (p : Option Nat) : Cache :=
  { c with lines := c.lines.map (fun l =>
    if l.data = p then { l with basichash := sent, hash := sent, used := veryOld }
    else l) }

/-- `_free_cacheline(cache, k, pipe)`. -/
def freeLine (c : Cache) (k : Nat) : Cache :=
  match c.lines.get? k with
  | none => c
  | some l =>
    { c with
      allmem := c.allmem - l.size,
      lines := c.lines.set k
        { data := none, size := 0, dsc := l.dsc, basichash := sent, hash := sent,
          used := veryOld, name := none } }

/-- Index-tagged lines, mirroring the `for(k = 0; k < entries; k++)` scans. -/
def enumLines (k : Nat) : List Line → List (Nat × Line)
  | [] => []
  | l :: ls => (k, l) :: enumLines (k + 1) ls

/-- The common shape of the four cacheline scans: keep the first strict
    running maximum of `used` among lines passing `cand`, starting from
    threshold `w` and default result `acc`. -/
def bestAux (cand : Line → Bool) : List (Nat × Line) → Int → Option Nat → Option Nat
  | [], _, acc => acc
  | (i, l) :: ps, w, acc =>
    if cand l = true ∧ w < l.used then bestAux cand ps l.used (some i)
    else bestAux cand ps w acc

/-- `_get_oldest_cacheline`. -/
def oldestCacheline (c : Cache) : Nat :=
  (bestAux (fun _ => true) (enumLines 0 c.lines) 1 (some 0)).getD 0

/-- `_get_oldest_used_cacheline(cache, age)`. -/
def oldestUsed (c : Cache) (age : Int) : Option Nat :=
  bestAux (fun l => l.data.isSome && decide (age < l.used)) (enumLines 0 c.lines)
    0 none

/-- `_get_oldest_free_cacheline`. -/
def oldestFree (c : Cache) : Option Nat :=
  bestAux (fun l => l.data.isNone) (enumLines 0 c.lines) 1 none

/-- `_get_oldest_highgrp_line`. -/
def oldestHigh (c : Cache) : Option Nat :=
  bestAux (fun l => l.data.isSome && decide (l.used < 0)) (enumLines 0 c.lines)
    (-((c.lines.length / 4 : Nat) : Int)) none

/-- `_get_cacheline`. -/
def getCacheline (c : Cache) : Nat :=
  if c.lines.length = 2 then c.queries % 2
  else
    match oldestFree c with
    | some k => k
    | none =>
      match oldestUsed c 2 with
      | some k => k
      | none => oldestCacheline c

/-- The scan of `_get_by_hash`: on a full-hash match with equal size the
    line is promoted (`used = -entries`) and the scan stops with a hit; on a
    size mismatch the line is quarantined (sentinel hashes,
    `used = -1000000`) and the scan continues. -/
def getByHashAux (ent : Nat) (h s : Nat) : Nat → List Line → List Line × Option Nat
  | _, [] => ([], none)
  | k, l :: ls =>
    if l.hash = h then
      if l.size ≠ s then
        let r := getByHashAux ent h s (k + 1) ls
        ({ l with hash := sent, basichash := sent, used := -1000000 } :: r.1, r.2)
      else ({ l with used := -(ent : Int) } :: ls, some k)
    else
      let r := getByHashAux ent h s (k + 1) ls
      (l :: r.1, r.2)

/-- `_get_by_hash` lifted to the cache state. -/
def getByHash (c : Cache) (h s : Nat) : Cache × Option Nat :=
  let r := getByHashAux c.lines.length h s 0 c.lines
  ({ c with lines := r.1 }, r.2)

/-- Result of `dt_dev_pixelpipe_cache_get`: the new cache state, the buffer
    pointer written to `*data`, the index of the line whose stored descriptor
    `*dsc` points at, and the returned flag (true = miss / fresh buffer). -/
structure GetResult where
  state : Cache
  dataOut : Option Nat
  dscIdx : Nat
  isNew : Bool
deriving DecidableEq

/-- The prologue of `..._cache_get`: `queries++` and ageing of every line. -/
def ageAll (c : Cache) : Cache :=
  { c with
    queries := c.queries + 1,
    lines := c.lines.map (fun l => { l with used := l.used + 1 }) }

/-- The miss path of `..._cache_get` at the selected line `cline`:
    grow-only resize for two-line pipes, exact resize otherwise, graceful
    allocation failure (null buffer, zero size), then descriptor copy, hash
    recording and weighting. -/
def missUpdate (c : Cache) (cline : Nat) (bh h s dscIn : Nat) (nm : Option Nat)
    (important avoiding : Bool) (alloc : Option Nat) : GetResult :=
  let n := c.lines.length
  let lOld := c.lines.getD cline dLine
  let resized :=
    if (n = 2 ∧ lOld.size < s) ∨ (2 < n ∧ lOld.size ≠ s) then
      match alloc with
      | some id => (c.allmem - lOld.size + s, { lOld with data := some id, size := s })
      | none => (c.allmem - lOld.size, { lOld with data := none, size := 0 })
    else (c.allmem, lOld)
  let lNew := { resized.2 with
    dsc := dscIn,
    basichash := bh,
    hash := h,
    used := if avoiding then veryOld else if important then -(n : Int) else 0,
    name := nm }
  { state := { c with
      allmem := resized.1,
      misses := c.misses + 1,
      lines := c.lines.set cline lNew },
    dataOut := resized.2.data, dscIdx := cline, isNew := true }

/-- `dt_dev_pixelpipe_cache_get(pipe, basichash, hash, size, data, dsc,
    name, important)`. -/
def cacheGet (c : Cache) (bh h s dscIn : Nat) (nm : Option Nat)
    (important avoiding : Bool) (alloc : Option Nat) : GetResult :=
  let c1 := ageAll c
  if 2 < c1.lines.length then
    match getByHash c1 h s with
    | (c2, some k) =>
      { state := c2, dataOut := (c2.lines.getD k dLine).data, dscIdx := k,
        isNew := false }
    | (c2, none) =>
      missUpdate c2 (getCacheline c2) bh h s dscIn nm important avoiding alloc
  else missUpdate c1 (getCacheline c1) bh h s dscIn nm important avoiding alloc

/-- Number of lines holding a buffer. -/
def countData (c : Cache) : Nat := c.lines.countP (fun l => l.data.isSome)

/-- The first while-loop of `..._cache_checkmem` (old unimportant lines). -/
def lowLoop : Nat → Cache → Int → Cache
  | 0, c, _ => c
  | fuel + 1, c, age =>
    if c.memlimit < c.allmem then
      match oldestUsed c age with
      | some k => lowLoop fuel (freeLine c k) age
      | none => c
    else c

/-- The second while-loop of `..._cache_checkmem` (important lines). -/
def highLoop : Nat → Cache → Cache
  | 0, c => c
  | fuel + 1, c =>
    if c.memlimit < c.allmem then
      match oldestHigh c with
      | some k => highLoop fuel (freeLine c k)
      | none => c
    else c

/-- The unconditional hit-error pass of `..._cache_checkmem`: free every
    line with `used < -entries`. -/
def badPass (c : Cache) : Cache :=
  (List.range c.lines.length).foldl
    (fun acc k =>
      if (acc.lines.getD k dLine).used < -(c.lines.length : Int) then freeLine acc k
      else acc) c

/-- `dt_dev_pixelpipe_cache_checkmem(pipe)`.  The while-loops are modelled
    with fuel `entries + 1`; lemmas below show this fuel always reaches the
    loop's genuine exit condition (each iteration frees one buffer). -/
def checkmem (c : Cache) : Cache :=
  if c.lines.length = 2 then c
  else
    let c1 := badPass c
    if c.memlimit ≠ 0 then
      let c2 := lowLoop (c.lines.length + 1) c1 ((max 2 (c.lines.length / 8) : Nat) : Int)
      highLoop (c.lines.length + 1) c2
    else c1

/-- The aggregate invariant of claim C10: `allmem` equals the sum of the
    recorded line sizes, and a line without a buffer has recorded size 0. -/
def wf (c : Cache) : Prop :=
  c.allmem = (c.lines.map Line.size).sum ∧ ∀ l ∈ c.lines, l.data = none → l.size = 0

instance (c : Cache) : Decidable (wf c) := by unfold wf; infer_instance

/- ===== Concrete states driving the refutations ===== -/

/-- A reachable 3-line cache state: line 0 holds full hash 777 at size 16,
    lines 1 and 2 are pinned important (age `-3`). -/
def cxC1 : Cache := ⟨0, 80, 0, 0,
  [⟨some 50, 16, 0, 7, 777, 0, none⟩,
   ⟨some 51, 32, 0, 8, 111, -3, none⟩,
   ⟨some 52, 32, 0, 9, 222, -3, none⟩]⟩

/-- C1: the code contradicts the claim (and the comment inside
    `_get_by_hash`).  Requesting hash 777 with size 32 finds line 0 with
    matching hash and differing size, so the scan quarantines it
    (`used = -1000000`) and reports a miss; but since no line then has
    `used > 1`, `_get_oldest_cacheline`'s default answer 0 makes the miss
    path select that very line: its old buffer is freed and reallocated, the
    call returns the quarantined line's slot, and afterwards the line's
    `used` is 0, so a subsequent `checkmem` will not free it. -/
theorem C1_hit_error_line_reused :
    ((cxC1.lines.getD 0 dLine).hash = 777 ∧ (cxC1.lines.getD 0 dLine).size ≠ 32
      ∧ (cxC1.lines.getD 0 dLine).data = some 50)
    ∧ ((getByHash (ageAll cxC1) 777 32).1.lines.getD 0 dLine).used = -1000000
    ∧ (getByHash (ageAll cxC1) 777 32).2 = none
    ∧ (cacheGet cxC1 10 777 32 5 none false false (some 99)).dscIdx = 0
    ∧ (cacheGet cxC1 10 777 32 5 none false false (some 99)).dataOut = some 99
    ∧ ((cacheGet cxC1 10 777 32 5 none false false (some 99)).state.lines.getD 0
        dLine).data = some 99
    ∧ ((cacheGet cxC1 10 777 32 5 none false false (some 99)).state.lines.getD 0
        dLine).used = 0
    ∧ (∀ l ∈ (cacheGet cxC1 10 777 32 5 none false false (some 99)).state.lines,
        l.data ≠ some 50) := by decide

/-- A 4-line cache over budget whose only buffer sits on a line pinned at
    age `-2`. -/
def cxC5 : Cache := ⟨50, 100, 0, 0,
  [⟨some 1, 100, 0, 2, 3, -2, none⟩, dLine, dLine, dLine]⟩

/-- C5 fails as stated: with a nonzero limit of 50 and 100 allocated bytes,
    `checkmem` leaves the cache unchanged even though line 0 is an important
    line (`age_weight < 0`) with a non-null buffer — the high-group pass only
    considers lines with `age_weight > -entries/4 = -1`, which the claim's
    "among all lines with age_weight < 0" ignores. -/
theorem C5_counterexample :
    cxC5.memlimit = 50 ∧ cxC5.memlimit ≠ 0
    ∧ (checkmem cxC5).allmem = 100
    ∧ ((checkmem cxC5).lines.getD 0 dLine).data = some 1
    ∧ ((checkmem cxC5).lines.getD 0 dLine).used = -2
    ∧ ((checkmem cxC5).lines.getD 0 dLine).used < 0
    ∧ cxC5.memlimit < (checkmem cxC5).allmem := by decide

/-- A 3-line cache whose lines all hold buffers and are all recently used
    (ages `-1, 0, 0`, hence `0, 1, 1` after the call's ageing). -/
def cxC6 : Cache := ⟨0, 48, 0, 0,
  [⟨some 60, 16, 0, 1, 11, -1, none⟩,
   ⟨some 61, 16, 0, 2, 22, 0, none⟩,
   ⟨some 62, 16, 0, 3, 33, 0, none⟩]⟩

/-- C6 fails as stated: on this missing `Get` no line is free (case (a)
    empty) and no line has aged weight above 2 (case (b) empty); the claim's
    case (c) requires selecting a line with the largest `age_weight`, which
    moreover exceeds 1 — but the code's fallback returns line 0, whose aged
    weight is 0, while line 1 is strictly colder (aged weight 1). -/
theorem C6_counterexample :
    (getByHash (ageAll cxC6) 44 16).2 = none
    ∧ (∀ l ∈ (ageAll cxC6).lines, l.data ≠ none)
    ∧ (∀ l ∈ (ageAll cxC6).lines, l.used ≤ 2)
    ∧ (cacheGet cxC6 40 44 16 5 none false false (some 63)).dscIdx = 0
    ∧ ((ageAll cxC6).lines.getD 0 dLine).used = 0
    ∧ ((ageAll cxC6).lines.getD 1 dLine).used = 1 := by decide

/-- Fresh 4-line cache with lazy allocation. -/
def cx8a : Cache := (init 4 0 0 (fun _ => none)).1

/-- After `Get(basic=5, hash=7, size=16)`. -/
def cx8b : Cache := (cacheGet cx8a 5 7 16 0 none false false (some 100)).state

/-- After `Get(basic=6, hash=9, size=32)`. -/
def cx8c : Cache := (cacheGet cx8b 6 9 32 0 none false false (some 101)).state

/-- After `Get(basic=4, hash=(uint64_t)-1, size=64)`: `Get` populates a
    line whose recorded full hash is the sentinel. -/
def cx8d : Cache := (cacheGet cx8c 4 sent 64 0 none false false (some 102)).state

/-- C8 fails as stated: `Get` populated lines 0 and 1 with distinct basic
    hashes 4 and 6; `FlushAllBut 6` keeps line 1 and resets line 0's hashes
    to the sentinel while keeping its buffer and size — but `available`
    applied to flushed line 0's original full hash (the sentinel) and
    original size 64 still returns true, because the flushed line itself now
    matches that pair. -/
theorem C8_counterexample :
    ((cx8d.lines.getD 0 dLine).basichash = 4
      ∧ (cx8d.lines.getD 0 dLine).hash = sent
      ∧ (cx8d.lines.getD 0 dLine).size = 64
      ∧ (cx8d.lines.getD 0 dLine).data = some 102)
    ∧ ((cx8d.lines.getD 1 dLine).basichash = 6
      ∧ (cx8d.lines.getD 1 dLine).hash = 9)
    ∧ ((flushAllBut cx8d 6).lines.getD 0 dLine).basichash = sent
    ∧ (flushAllBut cx8d 6).lines.getD 1 dLine = cx8d.lines.getD 1 dLine
    ∧ available (flushAllBut cx8d 6) sent 64 = true := by decide

/- ===== Specification of the cacheline scans ===== -/

/-- What a successful scan returns: an in-range candidate line whose
    `used` weight exceeds the scan's threshold and is maximal among all
    candidate lines. -/
def SelBest (cand : Line → Bool) (w : Int) (ls : List Line) (j : Nat) : Prop :=
  j < ls.length ∧ cand (ls.getD j dLine) = true ∧ w < (ls.getD j dLine).used ∧
    ∀ i, i < ls.length → cand (ls.getD i dLine) = true →
      (ls.getD i dLine).used ≤ (ls.getD j dLine).used

/-- No line passes the scan's candidate predicate above its threshold. -/
def NoCand (cand : Line → Bool) (w : Int) (ls : List Line) : Prop :=
  ∀ i, i < ls.length → cand (ls.getD i dLine) = true → (ls.getD i dLine).used ≤ w

theorem bestAux_spec (cand : Line → Bool) :
    ∀ (ps : List (Nat × Line)) (w : Int) (acc : Option Nat),
      (bestAux cand ps w acc = acc ∧
        ∀ i l, (i, l) ∈ ps → cand l = true → l.used ≤ w)
      ∨ (∃ j lj, (j, lj) ∈ ps ∧ cand lj = true ∧ w < lj.used
          ∧ bestAux cand ps w acc = some j
          ∧ ∀ i l, (i, l) ∈ ps → cand l = true → l.used ≤ lj.used) := by
  intro ps
  induction ps with
  | nil => intro w acc; exact Or.inl ⟨rfl, by simp⟩
  | cons p ps ih =>
    obtain ⟨i, l⟩ := p
    intro w acc
    by_cases hc : cand l = true ∧ w < l.used
    · rw [show bestAux cand ((i, l) :: ps) w acc = bestAux cand ps l.used (some i)
        from by simp [bestAux, hc]]
      rcases ih l.used (some i) with ⟨he, hall⟩ | ⟨j, lj, hmem, hcand, hgt, he, hmax⟩
      · right
        refine ⟨i, l, by simp, hc.1, hc.2, he, ?_⟩
        intro i' l' hmem' hcand'
        rcases List.mem_cons.mp hmem' with heq | htail
        · cases heq; exact le_refl _
        · exact hall i' l' htail hcand'
      · right
        refine ⟨j, lj, List.mem_cons_of_mem _ hmem, hcand, lt_trans hc.2 hgt, he, ?_⟩
        intro i' l' hmem' hcand'
        rcases List.mem_cons.mp hmem' with heq | htail
        · cases heq; exact le_of_lt hgt
        · exact hmax i' l' htail hcand'
    · rw [show bestAux cand ((i, l) :: ps) w acc = bestAux cand ps w acc
        from by simp [bestAux]; intro h1 h2; exact absurd ⟨h1, h2⟩ hc]
      rcases ih w acc with ⟨he, hall⟩ | ⟨j, lj, hmem, hcand, hgt, he, hmax⟩
      · left
        refine ⟨he, ?_⟩
        intro i' l' hmem' hcand'
        rcases List.mem_cons.mp hmem' with heq | htail
        · cases heq; exact le_of_not_lt (fun hlt => hc ⟨hcand', hlt⟩)
        · exact hall i' l' htail hcand'
      · right
        refine ⟨j, lj, List.mem_cons_of_mem _ hmem, hcand, hgt, he, ?_⟩
        intro i' l' hmem' hcand'
        rcases List.mem_cons.mp hmem' with heq | htail
        · cases heq
          exact le_trans (le_of_not_lt (fun hlt => hc ⟨hcand', hlt⟩)) (le_of_lt hgt)
        · exact hmax i' l' htail hcand'

theorem enumLines_mem_getD : ∀ (ls : List Line) (k i : Nat) (l : Line),
    (i, l) ∈ enumLines k ls → k ≤ i ∧ i - k < ls.length ∧ ls.getD (i - k) dLine = l
  | [], k, i, l, h => by simp [enumLines] at h
  | x :: ls, k, i, l, h => by
    simp only [enumLines, List.mem_cons] at h
    rcases h with heq | htail
    · cases heq
      refine ⟨le_refl _, ?_, ?_⟩
      · simp
      · simp
    · obtain ⟨hk, hlt, hget⟩ := enumLines_mem_getD ls (k + 1) i l htail
      refine ⟨by omega, by simp; omega, ?_⟩
      have harith : i - k = (i - (k + 1)) + 1 := by omega
      rw [harith]
      simpa using hget

theorem enumLines_getD_mem : ∀ (ls : List Line) (k m : Nat), m < ls.length →
    (k + m, ls.getD m dLine) ∈ enumLines k ls
  | [], _, m, h => by simp at h
  | x :: ls, k, 0, _ => by simp [enumLines]
  | x :: ls, k, m + 1, h => by
    simp only [enumLines, List.mem_cons]
    right
    have hrec := enumLines_getD_mem ls (k + 1) m (by simpa using h)
    have harith : k + (m + 1) = (k + 1) + m := by omega
    rw [harith]
    simpa using hrec

theorem bestAux_enum_cases (cand : Line → Bool) (ls : List Line) (w : Int)
    (acc : Option Nat) :
    (bestAux cand (enumLines 0 ls) w acc = acc ∧ NoCand cand w ls)
    ∨ (∃ j, bestAux cand (enumLines 0 ls) w acc = some j ∧ SelBest cand w ls j) := by
  rcases bestAux_spec cand (enumLines 0 ls) w acc with ⟨he, hall⟩ |
    ⟨j, lj, hmem, hcand, hgt, he, hmax⟩
  · left
    refine ⟨he, ?_⟩
    intro i hi hcand'
    exact hall _ _ (by simpa using enumLines_getD_mem ls 0 i hi) hcand'
  · right
    obtain ⟨_, hlt, hget⟩ := enumLines_mem_getD ls 0 j lj hmem
    rw [Nat.sub_zero] at hlt hget
    refine ⟨j, he, hlt, by rw [hget]; exact hcand, by rw [hget]; exact hgt, ?_⟩
    intro i hi hcand'
    rw [hget]
    exact hmax _ _ (by simpa using enumLines_getD_mem ls 0 i hi) hcand'

theorem oldestFree_some {c : Cache} {j : Nat} (h : oldestFree c = some j) :
    SelBest (fun l => l.data.isNone) 1 c.lines j := by
  rcases bestAux_enum_cases (fun l => l.data.isNone) c.lines 1 none with ⟨he, _⟩ |
    ⟨j', he, hsel⟩
  · rw [oldestFree] at h; rw [he] at h; cases h
  · rw [oldestFree] at h; rw [he] at h
    injection h with hj; subst hj; exact hsel

theorem oldestFree_none {c : Cache} (h : oldestFree c = none) :
    NoCand (fun l => l.data.isNone) 1 c.lines := by
  rcases bestAux_enum_cases (fun l => l.data.isNone) c.lines 1 none with ⟨_, hnc⟩ |
    ⟨j', he, _⟩
  · exact hnc
  · rw [oldestFree] at h; rw [he] at h; cases h

theorem oldestUsed_some {c : Cache} {age : Int} {j : Nat}
    (h : oldestUsed c age = some j) :
    SelBest (fun l => l.data.isSome && decide (age < l.used)) 0 c.lines j := by
  rcases bestAux_enum_cases (fun l => l.data.isSome && decide (age < l.used))
    c.lines 0 none with ⟨he, _⟩ | ⟨j', he, hsel⟩
  · rw [oldestUsed] at h; rw [he] at h; cases h
  · rw [oldestUsed] at h; rw [he] at h
    injection h with hj; subst hj; exact hsel

theorem oldestUsed_none {c : Cache} {age : Int} (h : oldestUsed c age = none) :
    NoCand (fun l => l.data.isSome && decide (age < l.used)) 0 c.lines := by
  rcases bestAux_enum_cases (fun l => l.data.isSome && decide (age < l.used))
    c.lines 0 none with ⟨_, hnc⟩ | ⟨j', he, _⟩
  · exact hnc
  · rw [oldestUsed] at h; rw [he] at h; cases h

theorem oldestHigh_some {c : Cache} {j : Nat} (h : oldestHigh c = some j) :
    SelBest (fun l => l.data.isSome && decide (l.used < 0))
      (-((c.lines.length / 4 : Nat) : Int)) c.lines j := by
  rcases bestAux_enum_cases (fun l => l.data.isSome && decide (l.used < 0))
    c.lines (-((c.lines.length / 4 : Nat) : Int)) none with ⟨he, _⟩ | ⟨j', he, hsel⟩
  · rw [oldestHigh] at h; rw [he] at h; cases h
  · rw [oldestHigh] at h; rw [he] at h
    injection h with hj; subst hj; exact hsel

theorem oldestHigh_none {c : Cache} (h : oldestHigh c = none) :
    NoCand (fun l => l.data.isSome && decide (l.used < 0))
      (-((c.lines.length / 4 : Nat) : Int)) c.lines := by
  rcases bestAux_enum_cases (fun l => l.data.isSome && decide (l.used < 0))
    c.lines (-((c.lines.length / 4 : Nat) : Int)) none with ⟨_, hnc⟩ | ⟨j', he, _⟩
  · exact hnc
  · rw [oldestHigh] at h; rw [he] at h; cases h

theorem oldestCacheline_spec (c : Cache) :
    SelBest (fun _ => true) 1 c.lines (oldestCacheline c)
    ∨ (NoCand (fun _ => true) 1 c.lines ∧ oldestCacheline c = 0) := by
  rcases bestAux_enum_cases (fun _ => true) c.lines 1 (some 0) with ⟨he, hnc⟩ |
    ⟨j', he, hsel⟩
  · right
    exact ⟨hnc, by rw [oldestCacheline, he]; rfl⟩
  · left
    rw [oldestCacheline, he]
    exact hsel

theorem getCacheline_lt {c : Cache} (hc : 0 < c.lines.length) :
    getCacheline c < c.lines.length := by
  by_cases h2 : c.lines.length = 2
  · rw [getCacheline, if_pos h2, h2]
    exact Nat.mod_lt _ (by decide)
  · rw [getCacheline, if_neg h2]
    cases hf : oldestFree c with
    | some k => exact (oldestFree_some hf).1
    | none =>
      cases hu : oldestUsed c 2 with
      | some k => exact (oldestUsed_some hu).1
      | none =>
        rcases oldestCacheline_spec c with hsel | ⟨_, h0⟩
        · exact hsel.1
        · rw [h0]; exact hc

/- ===== Helper lemmas about get ===== -/

theorem getD_set_self {α : Type} (d : α) : ∀ (ls : List α) (j : Nat) (a : α),
    j < ls.length → (ls.set j a).getD j d = a
  | [], j, a, h => by simp at h
  | x :: ls, 0, a, _ => rfl
  | x :: ls, j + 1, a, h =>
    getD_set_self d ls j a (Nat.lt_of_succ_lt_succ h)

theorem getD_set_ne {α : Type} (d : α) : ∀ (ls : List α) (i j : Nat) (a : α),
    i ≠ j → (ls.set i a).getD j d = ls.getD j d
  | [], i, j, a, h => rfl
  | x :: ls, 0, 0, a, h => absurd rfl h
  | x :: ls, 0, j + 1, a, _ => rfl
  | x :: ls, i + 1, 0, a, _ => rfl
  | x :: ls, i + 1, j + 1, a, h =>
    getD_set_ne d ls i j a (fun he => h (by omega))

theorem ageAll_length (c : Cache) : (ageAll c).lines.length = c.lines.length := by
  simp [ageAll]

theorem ageAll_queries (c : Cache) : (ageAll c).queries = c.queries + 1 := rfl

theorem ageAll_allmem (c : Cache) : (ageAll c).allmem = c.allmem := rfl

theorem ageAll_memlimit (c : Cache) : (ageAll c).memlimit = c.memlimit := rfl

theorem aged_getD {c : Cache} {j : Nat} (hj : j < c.lines.length) :
    (ageAll c).lines.getD j dLine
      = { c.lines.getD j dLine with used := (c.lines.getD j dLine).used + 1 } := by
  unfold ageAll
  rw [List.getD_eq_getElem _ _ (by simpa using hj), List.getElem_map,
    List.getD_eq_getElem _ _ hj]

theorem missUpdate_isNew (c : Cache) (cline bh h s dscIn : Nat) (nm : Option Nat)
    (imp av : Bool) (al : Option Nat) :
    (missUpdate c cline bh h s dscIn nm imp av al).isNew = true := rfl

theorem missUpdate_dscIdx (c : Cache) (cline bh h s dscIn : Nat) (nm : Option Nat)
    (imp av : Bool) (al : Option Nat) :
    (missUpdate c cline bh h s dscIn nm imp av al).dscIdx = cline := rfl

theorem missUpdate_queries (c : Cache) (cline bh h s dscIn : Nat) (nm : Option Nat)
    (imp av : Bool) (al : Option Nat) :
    (missUpdate c cline bh h s dscIn nm imp av al).state.queries = c.queries := rfl

theorem missUpdate_length (c : Cache) (cline bh h s dscIn : Nat) (nm : Option Nat)
    (imp av : Bool) (al : Option Nat) :
    (missUpdate c cline bh h s dscIn nm imp av al).state.lines.length
      = c.lines.length := by
  unfold missUpdate
  simp

/-- With two cachelines `get` never searches: it goes straight to the miss
    path at line `queries & 1` (queries freshly incremented). -/
theorem get_two_aux (c : Cache) (hn : c.lines.length = 2) (bh h s dscIn : Nat)
    (nm : Option Nat) (imp av : Bool) (al : Option Nat) :
    cacheGet c bh h s dscIn nm imp av al
      = missUpdate (ageAll c) ((c.queries + 1) % 2) bh h s dscIn nm imp av al := by
  have hlen : (ageAll c).lines.length = 2 := by rw [ageAll_length, hn]
  have hsel : getCacheline (ageAll c) = (c.queries + 1) % 2 := by
    rw [getCacheline, if_pos hlen, ageAll_queries]
  have hno : ¬ 2 < (ageAll c).lines.length := by rw [hlen]; omega
  unfold cacheGet
  dsimp only
  rw [if_neg hno, hsel]

theorem missUpdate_noresize (c : Cache) (cline bh h s dscIn : Nat)
    (nm : Option Nat) (imp av : Bool) (al : Option Nat)
    (hcond : ¬((c.lines.length = 2 ∧ (c.lines.getD cline dLine).size < s)
      ∨ (2 < c.lines.length ∧ (c.lines.getD cline dLine).size ≠ s)))
    (hlt : cline < c.lines.length) :
    (missUpdate c cline bh h s dscIn nm imp av al).dataOut
      = (c.lines.getD cline dLine).data
    ∧ ((missUpdate c cline bh h s dscIn nm imp av al).state.lines.getD cline
        dLine).data = (c.lines.getD cline dLine).data
    ∧ ((missUpdate c cline bh h s dscIn nm imp av al).state.lines.getD cline
        dLine).size = (c.lines.getD cline dLine).size
    ∧ (missUpdate c cline bh h s dscIn nm imp av al).state.allmem = c.allmem := by
  unfold missUpdate
  dsimp only
  rw [if_neg hcond, getD_set_self dLine _ _ _ hlt]
  exact ⟨rfl, rfl, rfl, rfl⟩

theorem missUpdate_resize_some (c : Cache) (cline bh h s dscIn : Nat)
    (nm : Option Nat) (imp av : Bool) (id : Nat)
    (hcond : (c.lines.length = 2 ∧ (c.lines.getD cline dLine).size < s)
      ∨ (2 < c.lines.length ∧ (c.lines.getD cline dLine).size ≠ s))
    (hlt : cline < c.lines.length) :
    (missUpdate c cline bh h s dscIn nm imp av (some id)).dataOut = some id
    ∧ ((missUpdate c cline bh h s dscIn nm imp av (some id)).state.lines.getD
        cline dLine).data = some id
    ∧ ((missUpdate c cline bh h s dscIn nm imp av (some id)).state.lines.getD
        cline dLine).size = s
    ∧ (missUpdate c cline bh h s dscIn nm imp av (some id)).state.allmem
      = c.allmem - (c.lines.getD cline dLine).size + s := by
  unfold missUpdate
  dsimp only
  rw [if_pos hcond, getD_set_self dLine _ _ _ hlt]
  exact ⟨rfl, rfl, rfl, rfl⟩

theorem missUpdate_resize_none (c : Cache) (cline bh h s dscIn : Nat)
    (nm : Option Nat) (imp av : Bool)
    (hcond : (c.lines.length = 2 ∧ (c.lines.getD cline dLine).size < s)
      ∨ (2 < c.lines.length ∧ (c.lines.getD cline dLine).size ≠ s))
    (hlt : cline < c.lines.length) :
    (missUpdate c cline bh h s dscIn nm imp av none).dataOut = none
    ∧ ((missUpdate c cline bh h s dscIn nm imp av none).state.lines.getD cline
        dLine).data = none
    ∧ ((missUpdate c cline bh h s dscIn nm imp av none).state.lines.getD cline
        dLine).size = 0
    ∧ (missUpdate c cline bh h s dscIn nm imp av none).state.allmem
      = c.allmem - (c.lines.getD cline dLine).size := by
  unfold missUpdate
  dsimp only
  rw [if_pos hcond, getD_set_self dLine _ _ _ hlt]
  exact ⟨rfl, rfl, rfl, rfl⟩

/-- C3: with `entries == 2` a `Get` call always reports a miss (no hash
    search), selects line `queryCounter & 1` with the counter incremented at
    call start (so successive calls strictly alternate), and reallocates only
    when the request strictly exceeds the line's allocation — a smaller or
    equal request reuses the buffer without shrinking or resizing records. -/
theorem C3_two_line_get (c : Cache) (bh h s dscIn : Nat) (nm : Option Nat)
    (imp av : Bool) (al : Option Nat) (j : Nat)
    (hn : c.lines.length = 2)
    (hj : j = (c.queries + 1) % 2) :
    (cacheGet c bh h s dscIn nm imp av al).isNew = true
    ∧ (cacheGet c bh h s dscIn nm imp av al).dscIdx = j
    ∧ (s ≤ (c.lines.getD j dLine).size →
        ((cacheGet c bh h s dscIn nm imp av al).state.lines.getD j dLine).data
          = (c.lines.getD j dLine).data
        ∧ ((cacheGet c bh h s dscIn nm imp av al).state.lines.getD j dLine).size
          = (c.lines.getD j dLine).size
        ∧ (cacheGet c bh h s dscIn nm imp av al).dataOut
          = (c.lines.getD j dLine).data)
    ∧ (∀ id, (c.lines.getD j dLine).size < s → al = some id →
        ((cacheGet c bh h s dscIn nm imp av al).state.lines.getD j dLine).data
          = some id
        ∧ ((cacheGet c bh h s dscIn nm imp av al).state.lines.getD j dLine).size
          = s)
    ∧ (∀ bh2 h2 s2 d2 nm2 imp2 av2 al2,
        (cacheGet (cacheGet c bh h s dscIn nm imp av al).state
          bh2 h2 s2 d2 nm2 imp2 av2 al2).dscIdx = (c.queries + 2) % 2)
    ∧ (c.queries + 2) % 2 ≠ j := by
  subst hj
  have hjlt2 : (c.queries + 1) % 2 < 2 := Nat.mod_lt _ (by decide)
  have hjlt : (c.queries + 1) % 2 < c.lines.length := by omega
  have hga := get_two_aux c hn bh h s dscIn nm imp av al
  have hlen1 : (ageAll c).lines.length = c.lines.length := ageAll_length c
  have haged := aged_getD (c := c) hjlt
  have hsize : ((ageAll c).lines.getD ((c.queries + 1) % 2) dLine).size
      = (c.lines.getD ((c.queries + 1) % 2) dLine).size := by rw [haged]
  have hdata : ((ageAll c).lines.getD ((c.queries + 1) % 2) dLine).data
      = (c.lines.getD ((c.queries + 1) % 2) dLine).data := by rw [haged]
  refine ⟨by rw [hga]; rfl, by rw [hga]; rfl, ?_, ?_, ?_, by omega⟩
  · intro hs
    have hcond : ¬(((ageAll c).lines.length = 2
        ∧ ((ageAll c).lines.getD ((c.queries + 1) % 2) dLine).size < s)
      ∨ (2 < (ageAll c).lines.length
        ∧ ((ageAll c).lines.getD ((c.queries + 1) % 2) dLine).size ≠ s)) := by
      rw [hlen1, hn, hsize]
      rintro (⟨_, hlt⟩ | ⟨hh, _⟩) <;> omega
    have hmr := missUpdate_noresize (ageAll c) _ bh h s dscIn nm imp av al hcond
      (by rw [hlen1]; exact hjlt)
    rw [hga]
    exact ⟨by rw [hmr.2.1, hdata], by rw [hmr.2.2.1, hsize], by rw [hmr.1, hdata]⟩
  · intro id hs hal
    subst hal
    have hcond : ((ageAll c).lines.length = 2
        ∧ ((ageAll c).lines.getD ((c.queries + 1) % 2) dLine).size < s)
      ∨ (2 < (ageAll c).lines.length
        ∧ ((ageAll c).lines.getD ((c.queries + 1) % 2) dLine).size ≠ s) := by
      rw [hlen1, hn, hsize]
      exact Or.inl ⟨rfl, hs⟩
    have hmr := missUpdate_resize_some (ageAll c) _ bh h s dscIn nm imp av id hcond
      (by rw [hlen1]; exact hjlt)
    rw [hga]
    exact ⟨hmr.2.1, hmr.2.2.1⟩
  · intro bh2 h2 s2 d2 nm2 imp2 av2 al2
    rw [hga]
    have hq : (missUpdate (ageAll c) ((c.queries + 1) % 2) bh h s dscIn nm imp av
        al).state.queries = c.queries + 1 := by
      rw [missUpdate_queries, ageAll_queries]
    have hl : (missUpdate (ageAll c) ((c.queries + 1) % 2) bh h s dscIn nm imp av
        al).state.lines.length = 2 := by
      rw [missUpdate_length, hlen1, hn]
    rw [get_two_aux _ hl bh2 h2 s2 d2 nm2 imp2 av2 al2, missUpdate_dscIdx, hq]

/-- A concrete two-line cache for the C3 witness. -/
def cw3 : Cache := ⟨0, 32, 0, 0,
  [⟨some 1, 16, 0, 5, 6, 0, none⟩, ⟨some 2, 16, 0, 7, 8, 0, none⟩]⟩

/-- Closed instance of `C3_two_line_get`: a request of 8 bytes against a
    16-byte line reuses it; the call lands on line `(0+1)&1 = 1`. -/
theorem C3_witness :
    (cacheGet cw3 1 2 8 0 none false false (some 9)).isNew = true
    ∧ (cacheGet cw3 1 2 8 0 none false false (some 9)).dscIdx = 1
    ∧ ((cacheGet cw3 1 2 8 0 none false false (some 9)).state.lines.getD 1
        dLine).size = 16
    ∧ (0 + 2) % 2 ≠ 1 := by
  have hmain := C3_two_line_get cw3 1 2 8 0 none false false (some 9) 1
    (by decide) (by decide)
  refine ⟨hmain.1, hmain.2.1, ?_, hmain.2.2.2.2.2⟩
  have hsz := (hmain.2.2.1 (by decide)).2.1
  rw [hsz]
  decide

theorem getByHashAux_length (ent h s : Nat) : ∀ (k : Nat) (ls : List Line),
    (getByHashAux ent h s k ls).1.length = ls.length
  | _, [] => rfl
  | k, l :: ls => by
    unfold getByHashAux
    by_cases hh : l.hash = h
    · by_cases hs : l.size ≠ s
      · rw [if_pos hh, if_pos hs]
        dsimp only
        rw [List.length_cons, List.length_cons, getByHashAux_length ent h s (k + 1) ls]
      · rw [if_pos hh, if_neg hs]
        dsimp only
        rw [List.length_cons, List.length_cons]
    · rw [if_neg hh]
      dsimp only
      rw [List.length_cons, List.length_cons, getByHashAux_length ent h s (k + 1) ls]

theorem getByHashAux_found (ent h s : Nat) : ∀ (ls : List Line) (k0 m : Nat),
    m < ls.length →
    (ls.getD m dLine).hash = h → (ls.getD m dLine).size = s →
    (∀ j, j < m → ¬((ls.getD j dLine).hash = h ∧ (ls.getD j dLine).size = s)) →
    (getByHashAux ent h s k0 ls).2 = some (k0 + m)
    ∧ (getByHashAux ent h s k0 ls).1.getD m dLine
      = { ls.getD m dLine with used := -(ent : Int) }
  | [], k0, m, hm, _, _, _ => by simp at hm
  | x :: ls, k0, 0, _, hh, hs, _ => by
    have hh2 : x.hash = h := hh
    have hs2 : x.size = s := hs
    unfold getByHashAux
    rw [if_pos hh2, if_neg (by intro hc; exact hc hs2)]
    exact ⟨rfl, rfl⟩
  | x :: ls, k0, m + 1, hm, hh, hs, hfirst => by
    have hrec := getByHashAux_found ent h s ls (k0 + 1) m
      (by simpa using hm) hh hs (fun j hj => hfirst (j + 1) (by omega))
    unfold getByHashAux
    by_cases hx : x.hash = h
    · have hxs : x.size ≠ s := by
        intro he
        exact hfirst 0 (by omega) ⟨hx, he⟩
      rw [if_pos hx, if_pos hxs]
      dsimp only
      refine ⟨?_, ?_⟩
      · rw [hrec.1]
        congr 1
        omega
      · exact hrec.2
    · rw [if_neg hx]
      dsimp only
      refine ⟨?_, ?_⟩
      · rw [hrec.1]
        congr 1
        omega
      · exact hrec.2

theorem getByHash_length (c : Cache) (h s : Nat) :
    (getByHash c h s).1.lines.length = c.lines.length := by
  unfold getByHash
  exact getByHashAux_length _ h s 0 c.lines

theorem getByHash_queries (c : Cache) (h s : Nat) :
    (getByHash c h s).1.queries = c.queries := rfl

theorem getByHash_allmem (c : Cache) (h s : Nat) :
    (getByHash c h s).1.allmem = c.allmem := rfl

theorem getByHash_memlimit (c : Cache) (h s : Nat) :
    (getByHash c h s).1.memlimit = c.memlimit := rfl

/-- Evaluating `cacheGet` on the hit path. -/
theorem cacheGet_eq_hit (c : Cache) (bh h s dscIn : Nat) (nm : Option Nat)
    (imp av : Bool) (al : Option Nat) (k : Nat)
    (hlen : 2 < (ageAll c).lines.length)
    (hk : (getByHash (ageAll c) h s).2 = some k) :
    cacheGet c bh h s dscIn nm imp av al
      = { state := (getByHash (ageAll c) h s).1,
          dataOut := ((getByHash (ageAll c) h s).1.lines.getD k dLine).data,
          dscIdx := k, isNew := false } := by
  unfold cacheGet
  dsimp only
  rw [if_pos hlen]
  rcases hgb : getByHash (ageAll c) h s with ⟨c2, r2⟩
  rw [hgb] at hk
  dsimp only at hk
  subst hk
  rfl

/-- Evaluating `cacheGet` on the searched-miss path. -/
theorem cacheGet_eq_miss (c : Cache) (bh h s dscIn : Nat) (nm : Option Nat)
    (imp av : Bool) (al : Option Nat)
    (hlen : 2 < (ageAll c).lines.length)
    (hm : (getByHash (ageAll c) h s).2 = none) :
    cacheGet c bh h s dscIn nm imp av al
      = missUpdate (getByHash (ageAll c) h s).1
          (getCacheline (getByHash (ageAll c) h s).1) bh h s dscIn nm imp av al := by
  unfold cacheGet
  dsimp only
  rw [if_pos hlen]
  rcases hgb : getByHash (ageAll c) h s with ⟨c2, r2⟩
  rw [hgb] at hm
  dsimp only at hm
  subst hm
  rfl

/-- C4: a `Get` on a search-capable cache that finds a line matching both
    the full hash and the byte size returns that line's buffer and stored
    descriptor slot, reports no new allocation, and pins the line at
    `age_weight = -entries` whatever its age was before. -/
theorem C4_hit_promotes (c : Cache) (k : Nat) (bh h s dscIn : Nat)
    (nm : Option Nat) (imp av : Bool) (al : Option Nat)
    (hlen : 2 < c.lines.length) (hk : k < c.lines.length)
    (hhash : (c.lines.getD k dLine).hash = h)
    (hsize : (c.lines.getD k dLine).size = s)
    (hfirst : ∀ j, j < k →
      ¬((c.lines.getD j dLine).hash = h ∧ (c.lines.getD j dLine).size = s)) :
    (cacheGet c bh h s dscIn nm imp av al).isNew = false
    ∧ (cacheGet c bh h s dscIn nm imp av al).dataOut = (c.lines.getD k dLine).data
    ∧ (cacheGet c bh h s dscIn nm imp av al).dscIdx = k
    ∧ ((cacheGet c bh h s dscIn nm imp av al).state.lines.getD k dLine).used
      = -(c.lines.length : Int)
    ∧ ((cacheGet c bh h s dscIn nm imp av al).state.lines.getD k dLine).data
      = (c.lines.getD k dLine).data
    ∧ ((cacheGet c bh h s dscIn nm imp av al).state.lines.getD k dLine).size
      = (c.lines.getD k dLine).size
    ∧ ((cacheGet c bh h s dscIn nm imp av al).state.lines.getD k dLine).hash
      = (c.lines.getD k dLine).hash
    ∧ ((cacheGet c bh h s dscIn nm imp av al).state.lines.getD k dLine).dsc
      = (c.lines.getD k dLine).dsc := by
  have hlen1 : (ageAll c).lines.length = c.lines.length := ageAll_length c
  have haged := aged_getD (c := c) hk
  have hfound := getByHashAux_found (ageAll c).lines.length h s (ageAll c).lines 0 k
    (by rw [hlen1]; exact hk)
    (by rw [haged]; exact hhash)
    (by rw [haged]; exact hsize)
    (by
      intro j hj
      rw [aged_getD (c := c) (by omega)]
      exact hfirst j hj)
  have hk2 : (getByHash (ageAll c) h s).2 = some k := by
    unfold getByHash
    dsimp only
    rw [hfound.1, Nat.zero_add]
  have hline : (getByHash (ageAll c) h s).1.lines.getD k dLine
      = { (ageAll c).lines.getD k dLine with used := -((ageAll c).lines.length : Int) } := by
    unfold getByHash
    dsimp only
    exact hfound.2
  have hcg := cacheGet_eq_hit c bh h s dscIn nm imp av al k (by omega) hk2
  rw [hcg]
  refine ⟨rfl, ?_, rfl, ?_, ?_, ?_, ?_, ?_⟩
  · rw [hline, haged]
  · rw [hline, hlen1]
  · rw [hline, haged]
  · rw [hline, haged]
  · rw [hline, haged]
  · rw [hline, haged]

/-- Concrete 3-line cache: line 1 matches hash 42 at size 24, line 0 matches
    the hash with the wrong size (so the scan walks past a quarantined line
    first). -/
def cw4 : Cache := ⟨0, 56, 3, 1,
  [⟨some 5, 8, 0, 9, 42, 7, none⟩,
   ⟨some 6, 24, 4, 10, 42, 5, none⟩,
   ⟨some 7, 24, 0, 11, 77, -2, none⟩]⟩

/-- Closed instance of `C4_hit_promotes`: the hit line 1 is returned and
    pinned at `-3` even though its age was 5. -/
theorem C4_witness :
    (cacheGet cw4 1 42 24 0 none false false none).isNew = false
    ∧ (cacheGet cw4 1 42 24 0 none false false none).dataOut = some 6
    ∧ (cacheGet cw4 1 42 24 0 none false false none).dscIdx = 1
    ∧ ((cacheGet cw4 1 42 24 0 none false false none).state.lines.getD 1
        dLine).used = -3 := by
  have hmain := C4_hit_promotes cw4 1 1 42 24 0 none false false none
    (by decide) (by decide) (by decide) (by decide)
    (by decide)
  refine ⟨hmain.1, ?_, hmain.2.2.1, ?_⟩
  · rw [hmain.2.1]; decide
  · rw [hmain.2.2.2.1]; decide

/-- Evaluating `cacheGet` on pipes that never search (`entries ≤ 2`). -/
theorem cacheGet_eq_small (c : Cache) (bh h s dscIn : Nat) (nm : Option Nat)
    (imp av : Bool) (al : Option Nat)
    (hlen : ¬ 2 < (ageAll c).lines.length) :
    cacheGet c bh h s dscIn nm imp av al
      = missUpdate (ageAll c) (getCacheline (ageAll c)) bh h s dscIn nm imp
          av al := by
  unfold cacheGet
  dsimp only
  rw [if_neg hlen]

/-- C9: when the aligned allocation fails during a (re)size on the miss
    path, `Get` still returns normally with a miss: the freed old bytes are
    subtracted from `allmem`, the selected line is left with a null buffer
    and recorded size 0, and the null pointer is handed back to the caller. -/
theorem C9_alloc_fail (c c2 : Cache) (bh h s dscIn : Nat) (nm : Option Nat)
    (imp av : Bool) (j : Nat)
    (hmiss : 2 < c.lines.length → (getByHash (ageAll c) h s).2 = none)
    (hc2 : c2 = if 2 < c.lines.length then (getByHash (ageAll c) h s).1
      else ageAll c)
    (hj : j = getCacheline c2)
    (hneed : (c2.lines.length = 2 ∧ (c2.lines.getD j dLine).size < s)
      ∨ (2 < c2.lines.length ∧ (c2.lines.getD j dLine).size ≠ s)) :
    (cacheGet c bh h s dscIn nm imp av none).isNew = true
    ∧ (cacheGet c bh h s dscIn nm imp av none).dataOut = none
    ∧ ((cacheGet c bh h s dscIn nm imp av none).state.lines.getD j dLine).data
      = none
    ∧ ((cacheGet c bh h s dscIn nm imp av none).state.lines.getD j dLine).size
      = 0
    ∧ (cacheGet c bh h s dscIn nm imp av none).state.allmem
      = c.allmem - (c2.lines.getD j dLine).size := by
  have hjlt : j < c2.lines.length := by
    subst hj
    apply getCacheline_lt
    rcases hneed with ⟨hl, _⟩ | ⟨hl, _⟩ <;> omega
  by_cases hlen : 2 < c.lines.length
  · rw [if_pos hlen] at hc2
    subst hc2
    subst hj
    have hcg := cacheGet_eq_miss c bh h s dscIn nm imp av none
      (by rw [ageAll_length]; exact hlen) (hmiss hlen)
    rw [hcg]
    have hmr := missUpdate_resize_none (getByHash (ageAll c) h s).1
      (getCacheline (getByHash (ageAll c) h s).1) bh h s dscIn nm imp av
      hneed hjlt
    refine ⟨rfl, hmr.1, hmr.2.1, hmr.2.2.1, ?_⟩
    rw [hmr.2.2.2, getByHash_allmem, ageAll_allmem]
  · rw [if_neg hlen] at hc2
    subst hc2
    subst hj
    have hcg := cacheGet_eq_small c bh h s dscIn nm imp av none
      (by rw [ageAll_length]; exact hlen)
    rw [hcg]
    have hmr := missUpdate_resize_none (ageAll c) (getCacheline (ageAll c))
      bh h s dscIn nm imp av hneed hjlt
    refine ⟨rfl, hmr.1, hmr.2.1, hmr.2.2.1, ?_⟩
    rw [hmr.2.2.2, ageAll_allmem]

/-- A concrete two-line cache for the C9 witness. -/
def cw9 : Cache := ⟨0, 8, 0, 0,
  [⟨some 1, 4, 0, 5, 6, 0, none⟩, ⟨some 2, 4, 0, 7, 8, 0, none⟩]⟩

/-- Closed instance of `C9_alloc_fail`: a growth request of 10 bytes whose
    allocation fails leaves line 1 null with size 0 and 4 bytes subtracted. -/
theorem C9_witness :
    (cacheGet cw9 1 2 10 0 none false false none).isNew = true
    ∧ (cacheGet cw9 1 2 10 0 none false false none).dataOut = none
    ∧ ((cacheGet cw9 1 2 10 0 none false false none).state.lines.getD 1
        dLine).data = none
    ∧ ((cacheGet cw9 1 2 10 0 none false false none).state.lines.getD 1
        dLine).size = 0
    ∧ (cacheGet cw9 1 2 10 0 none false false none).state.allmem = 4 := by
  have hm := C9_alloc_fail cw9 (ageAll cw9) 1 2 10 0 none false false 1
    (by decide) (by decide) (by decide) (by decide)
  refine ⟨hm.1, hm.2.1, hm.2.2.1, hm.2.2.2.1, ?_⟩
  rw [hm.2.2.2.2]
  decide

theorem getCacheline_cases (c : Cache) (h2 : ¬ c.lines.length = 2) :
    (∃ k, oldestFree c = some k ∧ getCacheline c = k)
    ∨ (oldestFree c = none
        ∧ ∃ k, oldestUsed c 2 = some k ∧ getCacheline c = k)
    ∨ (oldestFree c = none ∧ oldestUsed c 2 = none
        ∧ getCacheline c = oldestCacheline c) := by
  cases hf : oldestFree c with
  | some k =>
    left
    exact ⟨k, rfl, by rw [getCacheline, if_neg h2, hf]⟩
  | none =>
    cases hu : oldestUsed c 2 with
    | some k =>
      right; left
      exact ⟨rfl, k, rfl, by rw [getCacheline, if_neg h2, hf, hu]⟩
    | none =>
      right; right
      exact ⟨rfl, rfl, by rw [getCacheline, if_neg h2, hf, hu]⟩

/-- C6 (amended): on a searched miss the reused line is chosen by the
    cascade (a) coldest null-buffer line with weight above 1, else (b)
    coldest buffer-holding line with weight above 2, else (c) coldest line
    overall among those with weight above 1, else (d) when no line's weight
    exceeds 1 — which includes the just-used line — line 0 unconditionally. -/
theorem C6_miss_selection (c c2 : Cache) (bh h s dscIn : Nat) (nm : Option Nat)
    (imp av : Bool) (al : Option Nat)
    (hlen : 2 < c.lines.length)
    (hmiss : (getByHash (ageAll c) h s).2 = none)
    (hc2 : c2 = (getByHash (ageAll c) h s).1) :
    (cacheGet c bh h s dscIn nm imp av al).dscIdx = getCacheline c2
    ∧ (SelBest (fun l => l.data.isNone) 1 c2.lines (getCacheline c2)
      ∨ (NoCand (fun l => l.data.isNone) 1 c2.lines
         ∧ SelBest (fun l => l.data.isSome && decide ((2:Int) < l.used)) 0
             c2.lines (getCacheline c2))
      ∨ (NoCand (fun l => l.data.isNone) 1 c2.lines
         ∧ NoCand (fun l => l.data.isSome && decide ((2:Int) < l.used)) 0 c2.lines
         ∧ SelBest (fun _ => true) 1 c2.lines (getCacheline c2))
      ∨ (NoCand (fun l => l.data.isNone) 1 c2.lines
         ∧ NoCand (fun l => l.data.isSome && decide ((2:Int) < l.used)) 0 c2.lines
         ∧ NoCand (fun _ => true) 1 c2.lines
         ∧ getCacheline c2 = 0)) := by
  have hlen2 : c2.lines.length = c.lines.length := by
    rw [hc2, getByHash_length, ageAll_length]
  constructor
  · rw [cacheGet_eq_miss c bh h s dscIn nm imp av al
      (by rw [ageAll_length]; exact hlen) hmiss, missUpdate_dscIdx, hc2]
  · rcases getCacheline_cases c2 (by omega) with ⟨k, hf, hsel⟩ |
      ⟨hf, k, hu, hsel⟩ | ⟨hf, hu, hsel⟩
    · left
      rw [hsel]
      exact oldestFree_some hf
    · right; left
      rw [hsel]
      exact ⟨oldestFree_none hf, oldestUsed_some hu⟩
    · rcases oldestCacheline_spec c2 with hbest | ⟨hnc, h0⟩
      · right; right; left
        rw [hsel]
        exact ⟨oldestFree_none hf, oldestUsed_none hu, hbest⟩
      · right; right; right
        rw [hsel]
        exact ⟨oldestFree_none hf, oldestUsed_none hu, hnc, h0⟩

/-- Concrete 3-line cache with two free lines for the C6 witness. -/
def cw6 : Cache := ⟨0, 8, 0, 0,
  [⟨some 1, 8, 0, 2, 3, 4, none⟩,
   ⟨none, 0, 0, sent, sent, 4, none⟩,
   ⟨none, 0, 0, sent, sent, 2, none⟩]⟩

/-- Closed instance of `C6_miss_selection`: the miss lands on the coldest
    free line, index 1. -/
theorem C6_witness :
    (cacheGet cw6 1 99 8 0 none false false (some 9)).dscIdx
      = getCacheline ((getByHash (ageAll cw6) 99 8).1)
    ∧ (cacheGet cw6 1 99 8 0 none false false (some 9)).dscIdx = 1 :=
  ⟨(C6_miss_selection cw6 ((getByHash (ageAll cw6) 99 8).1) 1 99 8 0 none false
      false (some 9) (by decide) (by decide) rfl).1, by decide⟩

/- ===== Lemmas about freeing and the checkmem loops ===== -/

theorem freeLine_memlimit (c : Cache) (k : Nat) :
    (freeLine c k).memlimit = c.memlimit := by
  unfold freeLine
  cases c.lines.get? k <;> rfl

theorem freeLine_queries (c : Cache) (k : Nat) :
    (freeLine c k).queries = c.queries := by
  unfold freeLine
  cases c.lines.get? k <;> rfl

theorem freeLine_length (c : Cache) (k : Nat) :
    (freeLine c k).lines.length = c.lines.length := by
  unfold freeLine
  cases c.lines.get? k with
  | none => rfl
  | some l => simp

theorem freeLine_allmem_le (c : Cache) (k : Nat) :
    (freeLine c k).allmem ≤ c.allmem := by
  unfold freeLine
  cases c.lines.get? k with
  | none => exact le_refl _
  | some l => exact Nat.sub_le _ _

theorem freeLine_getD_ne (c : Cache) (k j : Nat) (hne : k ≠ j) :
    (freeLine c k).lines.getD j dLine = c.lines.getD j dLine := by
  unfold freeLine
  cases c.lines.get? k with
  | none => rfl
  | some l => exact getD_set_ne dLine _ k j _ hne

theorem freeLine_getD_self (c : Cache) (k : Nat) (hk : k < c.lines.length) :
    ((freeLine c k).lines.getD k dLine).data = none := by
  unfold freeLine
  cases hgk : c.lines.get? k with
  | none =>
    exfalso
    have := List.get?_eq_none.mp hgk
    omega
  | some l =>
    rw [getD_set_self dLine _ _ _ hk]

theorem countP_set_line (p : Line → Bool) : ∀ (ls : List Line) (k : Nat) (a : Line),
    k < ls.length →
    (ls.set k a).countP p + (if p (ls.getD k dLine) then 1 else 0)
      = ls.countP p + (if p a then 1 else 0)
  | [], k, a, hk => by simp at hk
  | x :: ls, 0, a, _ => by
    simp only [List.set, List.countP_cons]
    have h0 : (x :: ls).getD 0 dLine = x := rfl
    rw [h0]
    by_cases hpx : p x = true <;> by_cases hpa : p a = true <;>
      simp [hpx, hpa]
  | x :: ls, k + 1, a, hk => by
    simp only [List.set, List.countP_cons]
    have h0 : (x :: ls).getD (k + 1) dLine = ls.getD k dLine := rfl
    rw [h0]
    have hrec := countP_set_line p ls k a (Nat.lt_of_succ_lt_succ hk)
    by_cases hpd : p (ls.getD k dLine) = true <;> by_cases hpa : p a = true <;>
      by_cases hpx : p x = true <;> simp [hpd, hpa, hpx] at hrec ⊢ <;> omega

theorem countData_freeLine (c : Cache) (k : Nat) (hk : k < c.lines.length)
    (hd : (c.lines.getD k dLine).data.isSome = true) :
    countData (freeLine c k) + 1 = countData c := by
  unfold freeLine countData
  cases hgk : c.lines.get? k with
  | none =>
    exfalso
    have := List.get?_eq_none.mp hgk
    omega
  | some l =>
    dsimp only
    have hcp := countP_set_line (fun l => l.data.isSome) c.lines k
      ⟨none, 0, l.dsc, sent, sent, veryOld, none⟩ hk
    rw [if_pos hd, if_neg (by simp)] at hcp
    omega

theorem and_eq_true_iff {a b : Bool} : (a && b) = true ↔ a = true ∧ b = true := by
  simp

theorem highLoop_memlimit : ∀ (fuel : Nat) (c : Cache),
    (highLoop fuel c).memlimit = c.memlimit
  | 0, _ => rfl
  | fuel + 1, c => by
    unfold highLoop
    by_cases hc : c.memlimit < c.allmem
    · rw [if_pos hc]
      cases hh : oldestHigh c with
      | some j => rw [highLoop_memlimit fuel (freeLine c j), freeLine_memlimit]
      | none => rfl
    · rw [if_neg hc]

theorem highLoop_length : ∀ (fuel : Nat) (c : Cache),
    (highLoop fuel c).lines.length = c.lines.length
  | 0, _ => rfl
  | fuel + 1, c => by
    unfold highLoop
    by_cases hc : c.memlimit < c.allmem
    · rw [if_pos hc]
      cases hh : oldestHigh c with
      | some j => rw [highLoop_length fuel (freeLine c j), freeLine_length]
      | none => rfl
    · rw [if_neg hc]

theorem highLoop_allmem_le : ∀ (fuel : Nat) (c : Cache),
    (highLoop fuel c).allmem ≤ c.allmem
  | 0, _ => le_refl _
  | fuel + 1, c => by
    unfold highLoop
    by_cases hc : c.memlimit < c.allmem
    · rw [if_pos hc]
      cases hh : oldestHigh c with
      | some j =>
        exact le_trans (highLoop_allmem_le fuel (freeLine c j))
          (freeLine_allmem_le c j)
      | none => exact le_refl _
    · rw [if_neg hc]

theorem highLoop_lines : ∀ (fuel : Nat) (c : Cache) (k : Nat),
    (highLoop fuel c).lines.getD k dLine = c.lines.getD k dLine
    ∨ (((highLoop fuel c).lines.getD k dLine).data = none
       ∧ (c.lines.getD k dLine).used < 0
       ∧ -((c.lines.length / 4 : Nat) : Int) < (c.lines.getD k dLine).used
       ∧ (c.lines.getD k dLine).data.isSome = true)
  | 0, _, _ => Or.inl rfl
  | fuel + 1, c, k => by
    unfold highLoop
    by_cases hc : c.memlimit < c.allmem
    · rw [if_pos hc]
      cases hh : oldestHigh c with
      | none => exact Or.inl rfl
      | some j =>
        have hsel := oldestHigh_some hh
        have hcand := and_eq_true_iff.mp hsel.2.1
        have hneg : (c.lines.getD j dLine).used < 0 := of_decide_eq_true hcand.2
        rcases highLoop_lines fuel (freeLine c j) k with heq | ⟨hnone, hu, hw, hd⟩
        · by_cases hkj : j = k
          · subst hkj
            right
            exact ⟨by rw [heq]; exact freeLine_getD_self c j hsel.1,
              hneg, hsel.2.2.1, hcand.1⟩
          · exact Or.inl (by rw [heq, freeLine_getD_ne c j k hkj])
        · by_cases hkj : j = k
          · subst hkj
            right
            exact ⟨hnone, hneg, hsel.2.2.1, hcand.1⟩
          · right
            rw [freeLine_getD_ne c j k hkj] at hu hw hd
            rw [freeLine_length] at hw
            exact ⟨hnone, hu, hw, hd⟩
    · rw [if_neg hc]
      exact Or.inl rfl

theorem highLoop_none_stable (fuel : Nat) (c : Cache) (k : Nat)
    (h : (c.lines.getD k dLine).data = none) :
    ((highLoop fuel c).lines.getD k dLine).data = none := by
  rcases highLoop_lines fuel c k with heq | hfree
  · rw [heq]; exact h
  · exact hfree.1

theorem highLoop_post : ∀ (fuel : Nat) (c : Cache), countData c < fuel →
    (highLoop fuel c).allmem ≤ c.memlimit
    ∨ oldestHigh (highLoop fuel c) = none
  | 0, c, h => absurd h (by omega)
  | fuel + 1, c, h => by
    unfold highLoop
    by_cases hc : c.memlimit < c.allmem
    · rw [if_pos hc]
      cases hh : oldestHigh c with
      | none => exact Or.inr hh
      | some j =>
        have hsel := oldestHigh_some hh
        have hdj : (c.lines.getD j dLine).data.isSome = true :=
          (and_eq_true_iff.mp hsel.2.1).1
        have hcd := countData_freeLine c j hsel.1 hdj
        rcases highLoop_post fuel (freeLine c j) (by omega) with h1 | h2
        · left
          rw [freeLine_memlimit] at h1
          exact h1
        · exact Or.inr h2
    · rw [if_neg hc]
      left
      omega

theorem lowLoop_memlimit : ∀ (fuel : Nat) (c : Cache) (age : Int),
    (lowLoop fuel c age).memlimit = c.memlimit
  | 0, _, _ => rfl
  | fuel + 1, c, age => by
    unfold lowLoop
    by_cases hc : c.memlimit < c.allmem
    · rw [if_pos hc]
      cases hh : oldestUsed c age with
      | some j => rw [lowLoop_memlimit fuel (freeLine c j) age, freeLine_memlimit]
      | none => rfl
    · rw [if_neg hc]

theorem lowLoop_length : ∀ (fuel : Nat) (c : Cache) (age : Int),
    (lowLoop fuel c age).lines.length = c.lines.length
  | 0, _, _ => rfl
  | fuel + 1, c, age => by
    unfold lowLoop
    by_cases hc : c.memlimit < c.allmem
    · rw [if_pos hc]
      cases hh : oldestUsed c age with
      | some j => rw [lowLoop_length fuel (freeLine c j) age, freeLine_length]
      | none => rfl
    · rw [if_neg hc]

theorem foldl_free_length (t : Int) : ∀ (ks : List Nat) (c : Cache),
    ((ks.foldl (fun acc k =>
      if (acc.lines.getD k dLine).used < t then freeLine acc k else acc)
      c).lines.length) = c.lines.length
  | [], _ => rfl
  | k :: ks, c => by
    rw [List.foldl_cons, foldl_free_length t ks]
    split
    · exact freeLine_length c k
    · rfl

theorem foldl_free_memlimit (t : Int) : ∀ (ks : List Nat) (c : Cache),
    ((ks.foldl (fun acc k =>
      if (acc.lines.getD k dLine).used < t then freeLine acc k else acc)
      c).memlimit) = c.memlimit
  | [], _ => rfl
  | k :: ks, c => by
    rw [List.foldl_cons, foldl_free_memlimit t ks]
    split
    · exact freeLine_memlimit c k
    · rfl

theorem badPass_length (c : Cache) : (badPass c).lines.length = c.lines.length := by
  unfold badPass
  exact foldl_free_length _ _ c

theorem badPass_memlimit (c : Cache) : (badPass c).memlimit = c.memlimit := by
  unfold badPass
  exact foldl_free_memlimit _ _ c

/-- C5 (amended): after the hit-error pass and the old-unimportant pass,
    when usage still exceeds the nonzero limit, `checkmem` repeatedly frees
    the least important of the *eligible* important lines — those with
    `age_weight < 0` strictly above `-entries/4` holding a buffer, picking
    the one with the largest `age_weight` — until usage no longer exceeds
    the limit or no such line remains. -/
theorem C5_reclaim_highgrp (c c2 : Cache)
    (hn2 : ¬ c.lines.length = 2)
    (hml : c.memlimit ≠ 0)
    (hc2 : c2 = lowLoop (c.lines.length + 1) (badPass c)
      ((max 2 (c.lines.length / 8) : Nat) : Int)) :
    checkmem c = highLoop (c.lines.length + 1) c2
    ∧ (checkmem c).allmem ≤ c2.allmem
    ∧ ((checkmem c).allmem ≤ c.memlimit
        ∨ ∀ i, i < (checkmem c).lines.length →
            ¬(((checkmem c).lines.getD i dLine).used < 0
              ∧ -(((checkmem c).lines.length / 4 : Nat) : Int)
                  < ((checkmem c).lines.getD i dLine).used
              ∧ ((checkmem c).lines.getD i dLine).data.isSome = true))
    ∧ (∀ k, ((checkmem c).lines.getD k dLine).data = none →
        (c2.lines.getD k dLine).data.isSome = true →
        (c2.lines.getD k dLine).used < 0
          ∧ -((c2.lines.length / 4 : Nat) : Int) < (c2.lines.getD k dLine).used)
    ∧ (c.memlimit < c2.allmem → ∀ j, oldestHigh c2 = some j →
        SelBest (fun l => l.data.isSome && decide (l.used < 0))
          (-((c2.lines.length / 4 : Nat) : Int)) c2.lines j
        ∧ ((checkmem c).lines.getD j dLine).data = none) := by
  have heq : checkmem c = highLoop (c.lines.length + 1) c2 := by
    unfold checkmem
    rw [if_neg hn2, if_pos hml]
    dsimp only
    rw [hc2]
  have hmlc2 : c2.memlimit = c.memlimit := by
    rw [hc2, lowLoop_memlimit, badPass_memlimit]
  have hlc2 : c2.lines.length = c.lines.length := by
    rw [hc2, lowLoop_length, badPass_length]
  have hcount : countData c2 < c.lines.length + 1 := by
    have hle : c2.lines.countP (fun l => l.data.isSome) ≤ c2.lines.length :=
      List.countP_le_length _
    unfold countData
    omega
  refine ⟨heq, ?_, ?_, ?_, ?_⟩
  · rw [heq]
    exact highLoop_allmem_le _ _
  · rw [heq]
    rcases highLoop_post (c.lines.length + 1) c2 hcount with h1 | h2
    · left
      rw [hmlc2] at h1
      exact h1
    · right
      intro i hi
      rintro ⟨hu, hw, hd⟩
      have hnc := oldestHigh_none h2
      have hcand : (((highLoop (c.lines.length + 1) c2).lines.getD i dLine).data.isSome
          && decide (((highLoop (c.lines.length + 1) c2).lines.getD i dLine).used < 0))
          = true := by
        rw [and_eq_true_iff]
        exact ⟨hd, decide_eq_true hu⟩
      have hle := hnc i hi hcand
      exact absurd hle (not_le.mpr hw)
  · intro k hnone hsome
    rw [heq] at hnone
    rcases highLoop_lines (c.lines.length + 1) c2 k with heqk | ⟨_, hu, hw, hd⟩
    · rw [heqk] at hnone
      rw [hnone] at hsome
      simp at hsome
    · exact ⟨hu, hw⟩
  · intro hover j hoj
    have hsel := oldestHigh_some hoj
    refine ⟨hsel, ?_⟩
    rw [heq]
    have hstep : highLoop (c.lines.length + 1) c2
        = highLoop c.lines.length (freeLine c2 j) := by
      rw [highLoop, if_pos (by rw [hmlc2]; exact hover), hoj]
    rw [hstep]
    exact highLoop_none_stable _ _ _ (freeLine_getD_self c2 j hsel.1)

/-- An 8-line over-budget cache whose only buffer is on an eligible
    important line (age `-1 > -8/4`). -/
def cw5 : Cache := ⟨10, 100, 0, 0,
  [⟨some 7, 100, 0, 2, 3, -1, none⟩,
   dLine, dLine, dLine, dLine, dLine, dLine, dLine]⟩

/-- The C5 witness intermediate state after the first two passes. -/
def cw5L : Cache :=
  lowLoop (cw5.lines.length + 1) (badPass cw5)
    ((max 2 (cw5.lines.length / 8) : Nat) : Int)

/-- Closed instance of `C5_reclaim_highgrp`: with usage 100 over limit 10,
    the high-group pass frees exactly the eligible important line 0. -/
theorem C5_witness :
    SelBest (fun l => l.data.isSome && decide (l.used < 0))
      (-((cw5L.lines.length / 4 : Nat) : Int)) cw5L.lines 0
    ∧ ((checkmem cw5).lines.getD 0 dLine).data = none :=
  (C5_reclaim_highgrp cw5 cw5L (by decide) (by decide) rfl).2.2.2.2
    (by decide) 0 (by decide)

theorem getD_mem {α : Type} (d : α) (ls : List α) (k : Nat) (hk : k < ls.length) :
    ls.getD k d ∈ ls := by
  rw [List.getD_eq_getElem _ _ hk]
  exact List.getElem_mem hk

theorem flushAllBut_getD (c : Cache) (b : Nat) (k : Nat) (hk : k < c.lines.length) :
    (flushAllBut c b).lines.getD k dLine
      = if (c.lines.getD k dLine).basichash = b then c.lines.getD k dLine
        else { c.lines.getD k dLine with
               basichash := sent, hash := sent, used := veryOld } := by
  unfold flushAllBut
  rw [List.getD_eq_getElem _ _ (by simpa using hk), List.getElem_map,
    List.getD_eq_getElem _ _ hk]

theorem available_iff (c : Cache) (h s : Nat) :
    available c h s = true ↔ ∃ l ∈ c.lines, l.hash = h ∧ l.size = s := by
  unfold available
  rw [List.any_eq_true]
  constructor
  · rintro ⟨l, hl, hp⟩
    rw [and_eq_true_iff] at hp
    exact ⟨l, hl, of_decide_eq_true hp.1, of_decide_eq_true hp.2⟩
  · rintro ⟨l, hl, h1, h2⟩
    exact ⟨l, hl, by rw [and_eq_true_iff]
                     exact ⟨decide_eq_true h1, decide_eq_true h2⟩⟩

/-- C8 (amended): `FlushAllBut b` keeps every line with basic hash `b`
    byte-for-byte, resets every other line's hashes to the sentinel and its
    age to the never-reuse weight while freeing nothing; afterwards
    `available` is true for a kept line's original pair, and false for a
    flushed line's original pair provided that full hash is not the
    sentinel and no kept line carries the same full hash with the same
    size. -/
theorem C8_flush_all_but (c : Cache) (b : Nat) :
    (∀ k, k < c.lines.length →
      ((c.lines.getD k dLine).basichash = b →
        (flushAllBut c b).lines.getD k dLine = c.lines.getD k dLine)
      ∧ ((c.lines.getD k dLine).basichash ≠ b →
        (flushAllBut c b).lines.getD k dLine
          = { c.lines.getD k dLine with
              basichash := sent, hash := sent, used := veryOld }))
    ∧ (∀ k, k < c.lines.length → (c.lines.getD k dLine).basichash = b →
        available (flushAllBut c b) (c.lines.getD k dLine).hash
          (c.lines.getD k dLine).size = true)
    ∧ (∀ k, k < c.lines.length → (c.lines.getD k dLine).basichash ≠ b →
        (c.lines.getD k dLine).hash ≠ sent →
        (∀ m, m < c.lines.length → (c.lines.getD m dLine).basichash = b →
          ¬((c.lines.getD m dLine).hash = (c.lines.getD k dLine).hash
            ∧ (c.lines.getD m dLine).size = (c.lines.getD k dLine).size)) →
        available (flushAllBut c b) (c.lines.getD k dLine).hash
          (c.lines.getD k dLine).size = false) := by
  refine ⟨?_, ?_, ?_⟩
  · intro k hk
    constructor
    · intro hb
      rw [flushAllBut_getD c b k hk, if_pos hb]
    · intro hb
      rw [flushAllBut_getD c b k hk, if_neg hb]
  · intro k hk hb
    rw [available_iff]
    refine ⟨(flushAllBut c b).lines.getD k dLine, ?_, ?_, ?_⟩
    · exact getD_mem dLine _ k (by simp [flushAllBut, hk])
    · rw [flushAllBut_getD c b k hk, if_pos hb]
    · rw [flushAllBut_getD c b k hk, if_pos hb]
  · intro k hk hb hsent hnodup
    rw [Bool.eq_false_iff]
    intro hav
    obtain ⟨l, hl, hlh, hls⟩ := (available_iff _ _ _).mp hav
    obtain ⟨x, hx, hfx⟩ := List.mem_map.mp (by simpa [flushAllBut] using hl)
    obtain ⟨m, hm, hxm⟩ := List.mem_iff_getElem.mp hx
    have hxd : c.lines.getD m dLine = x := by
      rw [List.getD_eq_getElem _ _ hm, hxm]
    by_cases hxb : x.basichash = b
    · rw [if_pos hxb] at hfx
      subst hfx
      exact hnodup m hm (by rw [hxd]; exact hxb) ⟨by rw [hxd]; exact hlh,
        by rw [hxd]; exact hls⟩
    · rw [if_neg hxb] at hfx
      subst hfx
      exact hsent (by rw [← hlh])
  
/-- A concrete 3-line cache with two populated lines of distinct basic
    hashes for the C8 witness. -/
def cw8 : Cache := ⟨0, 48, 0, 0,
  [⟨some 1, 16, 0, 5, 100, 0, none⟩,
   ⟨some 2, 32, 0, 6, 200, 0, none⟩,
   ⟨none, 0, 0, sent, sent, 1, none⟩]⟩

/-- Closed instance of `C8_flush_all_but`: keeping basic hash 5 preserves
    line 0's lookup and invalidates line 1's. -/
theorem C8_witness :
    available (flushAllBut cw8 5) 100 16 = true
    ∧ available (flushAllBut cw8 5) 200 32 = false := by
  have hm := C8_flush_all_but cw8 5
  exact ⟨hm.2.1 0 (by decide) (by decide),
    hm.2.2 1 (by decide) (by decide) (by decide) (by decide)⟩

/- ===== The allmem invariant (C10) ===== -/

theorem sum_sizes_set : ∀ (ls : List Line) (k : Nat) (a : Line), k < ls.length →
    ((ls.set k a).map Line.size).sum + (ls.getD k dLine).size
      = (ls.map Line.size).sum + a.size
  | [], k, a, hk => by simp at hk
  | x :: ls, 0, a, _ => by
    simp only [List.set, List.map_cons, List.sum_cons]
    have h0 : (x :: ls).getD 0 dLine = x := rfl
    rw [h0]
    omega
  | x :: ls, k + 1, a, hk => by
    simp only [List.set, List.map_cons, List.sum_cons]
    have h0 : (x :: ls).getD (k + 1) dLine = ls.getD k dLine := rfl
    rw [h0]
    have := sum_sizes_set ls k a (Nat.lt_of_succ_lt_succ hk)
    omega

theorem getD_size_le_sum : ∀ (ls : List Line) (k : Nat), k < ls.length →
    (ls.getD k dLine).size ≤ (ls.map Line.size).sum
  | [], k, hk => by simp at hk
  | x :: ls, 0, _ => by
    simp only [List.map_cons, List.sum_cons]
    have h0 : (x :: ls).getD 0 dLine = x := rfl
    rw [h0]
    omega
  | x :: ls, k + 1, hk => by
    simp only [List.map_cons, List.sum_cons]
    have h0 : (x :: ls).getD (k + 1) dLine = ls.getD k dLine := rfl
    rw [h0]
    have := getD_size_le_sum ls k (Nat.lt_of_succ_lt_succ hk)
    omega

theorem pairs_map : ∀ (ls : List Line) (f : Line → Line),
    (∀ l, (f l).data = l.data) → (∀ l, (f l).size = l.size) →
    (ls.map f).map (fun l => (l.data, l.size))
      = ls.map (fun l => (l.data, l.size))
  | [], _, _, _ => rfl
  | x :: ls, f, h1, h2 => by
    simp only [List.map_cons]
    rw [pairs_map ls f h1 h2, h1 x, h2 x]

theorem getByHashAux_pairs (ent h s : Nat) : ∀ (k : Nat) (ls : List Line),
    ((getByHashAux ent h s k ls).1).map (fun l => (l.data, l.size))
      = ls.map (fun l => (l.data, l.size))
  | _, [] => rfl
  | k, l :: ls => by
    unfold getByHashAux
    by_cases hh : l.hash = h
    · by_cases hs : l.size ≠ s
      · rw [if_pos hh, if_pos hs]
        dsimp only
        simp only [List.map_cons]
        rw [getByHashAux_pairs ent h s (k + 1) ls]
      · rw [if_pos hh, if_neg hs]
        dsimp only
        simp only [List.map_cons]
    · rw [if_neg hh]
      dsimp only
      simp only [List.map_cons]
      rw [getByHashAux_pairs ent h s (k + 1) ls]

theorem wf_of_pairs_eq {c c' : Cache} (hall : c'.allmem = c.allmem)
    (hp : c'.lines.map (fun l => (l.data, l.size))
      = c.lines.map (fun l => (l.data, l.size)))
    (hw : wf c) : wf c' := by
  constructor
  · have hs : c'.lines.map Line.size = c.lines.map Line.size := by
      have := congrArg (List.map Prod.snd) hp
      simpa [List.map_map, Function.comp] using this
    rw [hall, hs]
    exact hw.1
  · intro l hl hld
    have hmem : (l.data, l.size) ∈ c.lines.map (fun l => (l.data, l.size)) := by
      rw [← hp]
      exact List.mem_map_of_mem _ hl
    obtain ⟨x, hx, hxe⟩ := List.mem_map.mp hmem
    have h1 : x.data = l.data := congrArg Prod.fst hxe
    have h2 : x.size = l.size := congrArg Prod.snd hxe
    rw [← h2]
    exact hw.2 x hx (by rw [h1, hld])

theorem ageAll_wf {c : Cache} (hw : wf c) : wf (ageAll c) := by
  apply wf_of_pairs_eq (ageAll_allmem c) _ hw
  unfold ageAll
  exact pairs_map c.lines _ (fun l => rfl) (fun l => rfl)

theorem getByHash_wf {c : Cache} (h s : Nat) (hw : wf c) :
    wf (getByHash c h s).1 := by
  apply wf_of_pairs_eq (getByHash_allmem c h s) _ hw
  unfold getByHash
  exact getByHashAux_pairs _ h s 0 c.lines

theorem mem_set_cases {α : Type} : ∀ (ls : List α) (k : Nat) (a x : α),
    x ∈ ls.set k a → x ∈ ls ∨ x = a
  | [], _, _, _, hx => Or.inl hx
  | y :: ls, 0, a, x, hx => by
    rcases List.mem_cons.mp hx with he | ht
    · exact Or.inr he
    · exact Or.inl (List.mem_cons_of_mem _ ht)
  | y :: ls, k + 1, a, x, hx => by
    rcases List.mem_cons.mp hx with he | ht
    · exact Or.inl (by rw [he]; simp)
    · rcases mem_set_cases ls k a x ht with h1 | h2
      · exact Or.inl (List.mem_cons_of_mem _ h1)
      · exact Or.inr h2

theorem sum_set_eq (ls : List Line) (k : Nat) (a : Line) (hk : k < ls.length) :
    ((ls.set k a).map Line.size).sum
      = (ls.map Line.size).sum - (ls.getD k dLine).size + a.size := by
  have h1 := sum_sizes_set ls k a hk
  have h2 := getD_size_le_sum ls k hk
  omega

theorem missUpdate_wf (c : Cache) (cline bh h s dscIn : Nat) (nm : Option Nat)
    (imp av : Bool) (al : Option Nat) (hw : wf c) (hlt : cline < c.lines.length) :
    wf (missUpdate c cline bh h s dscIn nm imp av al).state := by
  have hles := getD_size_le_sum c.lines cline hlt
  have hgm : c.lines.getD cline dLine ∈ c.lines := getD_mem dLine c.lines cline hlt
  unfold missUpdate wf
  dsimp only
  by_cases hcond : (c.lines.length = 2 ∧ (c.lines.getD cline dLine).size < s)
      ∨ (2 < c.lines.length ∧ (c.lines.getD cline dLine).size ≠ s)
  · rw [if_pos hcond]
    cases al with
    | some id =>
      dsimp only
      constructor
      · rw [sum_set_eq c.lines cline _ hlt, hw.1]
      · intro l hl hld
        rcases mem_set_cases _ _ _ _ hl with h1 | h2
        · exact hw.2 l h1 hld
        · rw [h2] at hld
          simp at hld
    | none =>
      dsimp only
      constructor
      · rw [sum_set_eq c.lines cline _ hlt, hw.1]
        dsimp only
        omega
      · intro l hl hld
        rcases mem_set_cases _ _ _ _ hl with h1 | h2
        · exact hw.2 l h1 hld
        · rw [h2]
  · rw [if_neg hcond]
    dsimp only
    constructor
    · rw [sum_set_eq c.lines cline _ hlt, hw.1]
      dsimp only
      omega
    · intro l hl hld
      rcases mem_set_cases _ _ _ _ hl with h1 | h2
      · exact hw.2 l h1 hld
      · rw [h2] at hld ⊢
        dsimp only at hld ⊢
        exact hw.2 _ hgm hld

theorem freeLine_wf {c : Cache} (k : Nat) (hw : wf c) : wf (freeLine c k) := by
  unfold freeLine
  cases hgk : c.lines.get? k with
  | none => exact hw
  | some l =>
    have hk : k < c.lines.length := by
      by_contra hnk
      rw [List.get?_eq_none.mpr (by omega)] at hgk
      cases hgk
    have hld : c.lines.getD k dLine = l := by
      unfold List.getD
      rw [hgk]
      rfl
    constructor
    · dsimp only
      rw [sum_set_eq c.lines k _ hk, hw.1, hld]
      dsimp only
      omega
    · intro x hx hxd
      rcases mem_set_cases _ _ _ _ hx with h1 | h2
      · exact hw.2 x h1 hxd
      · rw [h2]

theorem lowLoop_wf : ∀ (fuel : Nat) (c : Cache) (age : Int), wf c →
    wf (lowLoop fuel c age)
  | 0, _, _, hw => hw
  | fuel + 1, c, age, hw => by
    unfold lowLoop
    by_cases hc : c.memlimit < c.allmem
    · rw [if_pos hc]
      cases hh : oldestUsed c age with
      | some j => exact lowLoop_wf fuel (freeLine c j) age (freeLine_wf j hw)
      | none => exact hw
    · rw [if_neg hc]
      exact hw

theorem highLoop_wf : ∀ (fuel : Nat) (c : Cache), wf c → wf (highLoop fuel c)
  | 0, _, hw => hw
  | fuel + 1, c, hw => by
    unfold highLoop
    by_cases hc : c.memlimit < c.allmem
    · rw [if_pos hc]
      cases hh : oldestHigh c with
      | some j => exact highLoop_wf fuel (freeLine c j) (freeLine_wf j hw)
      | none => exact hw
    · rw [if_neg hc]
      exact hw

theorem foldl_free_wf (t : Int) : ∀ (ks : List Nat) (c : Cache), wf c →
    wf (ks.foldl (fun acc k =>
      if (acc.lines.getD k dLine).used < t then freeLine acc k else acc) c)
  | [], _, hw => hw
  | k :: ks, c, hw => by
    rw [List.foldl_cons]
    apply foldl_free_wf t ks
    split
    · exact freeLine_wf k hw
    · exact hw

theorem badPass_wf {c : Cache} (hw : wf c) : wf (badPass c) := by
  unfold badPass
  exact foldl_free_wf _ _ c hw

theorem checkmem_wf {c : Cache} (hw : wf c) : wf (checkmem c) := by
  unfold checkmem
  by_cases h2 : c.lines.length = 2
  · rw [if_pos h2]
    exact hw
  · rw [if_neg h2]
    by_cases hm : c.memlimit ≠ 0
    · rw [if_pos hm]
      exact highLoop_wf _ _ (lowLoop_wf _ _ _ (badPass_wf hw))
    · rw [if_neg hm]
      exact badPass_wf hw

theorem flush_wf {c : Cache} (hw : wf c) : wf (flush c) := by
  have hp := pairs_map c.lines
    (fun l => { l with basichash := sent, hash := sent, used := veryOld })
    (fun l => rfl) (fun l => rfl)
  exact @wf_of_pairs_eq c (flush c) rfl hp hw

theorem flushAllBut_wf {c : Cache} (b : Nat) (hw : wf c) : wf (flushAllBut c b) := by
  have hp := pairs_map c.lines
    (fun l => if l.basichash = b then l
      else { l with basichash := sent, hash := sent, used := veryOld })
    (fun l => by dsimp only; split <;> rfl)
    (fun l => by dsimp only; split <;> rfl)
  exact @wf_of_pairs_eq c (flushAllBut c b) rfl hp hw

theorem invalidate_wf {c : Cache} (p : Option Nat) (hw : wf c) :
    wf (invalidate c p) := by
  have hp := pairs_map c.lines
    (fun l => if l.data = p
      then { l with basichash := sent, hash := sent, used := veryOld } else l)
    (fun l => by dsimp only; split <;> rfl)
    (fun l => by dsimp only; split <;> rfl)
  exact @wf_of_pairs_eq c (invalidate c p) rfl hp hw

theorem reweight_wf {c : Cache} (p : Option Nat) (s : Nat) (avoiding : Bool)
    (hw : wf c) : wf (reweight c p s avoiding) := by
  unfold reweight
  split
  · exact hw
  · have hp := pairs_map c.lines
      (fun l => if l.data = p ∧ s = l.size
        then { l with used := -(c.lines.length : Int) } else l)
      (fun l => by dsimp only; split <;> rfl)
      (fun l => by dsimp only; split <;> rfl)
    exact @wf_of_pairs_eq c _ rfl hp hw

theorem sum_map_const_line : ∀ (ks : List Nat) (v : Nat),
    ((ks.map (fun _ => v)).sum) = ks.length * v
  | [], _ => by simp
  | k :: ks, v => by
    simp only [List.map_cons, List.sum_cons, List.length_cons]
    rw [sum_map_const_line ks v]
    ring

theorem init_wf (n sz lim : Nat) (alloc : Nat → Option Nat) :
    wf (init n sz lim alloc).1 := by
  have hbase : wf (⟨lim, 0, 0, 0, List.replicate n dLine⟩ : Cache) := by
    constructor
    · simp [List.map_replicate, dLine]
    · intro l hl _
      rw [List.eq_of_mem_replicate hl]
      rfl
  unfold init
  dsimp only
  by_cases hsz : sz = 0
  · rw [if_pos hsz]
    exact hbase
  · rw [if_neg hsz]
    by_cases hall : ((List.range n).all fun k => (alloc k).isSome) = true
    · rw [if_pos hall]
      constructor
      · dsimp only
        rw [List.map_map]
        have hcomp : (Line.size ∘ fun k =>
            { dLine with data := alloc k, size := sz }) = fun _ => sz := rfl
        rw [hcomp, sum_map_const_line, List.length_range]
      · intro l hl hld
        obtain ⟨k, hk, hkl⟩ := List.mem_map.mp hl
        have hsome := List.all_eq_true.mp hall k hk
        rw [← hkl] at hld
        dsimp only at hld
        rw [hld] at hsome
        cases hsome
    · rw [if_neg hall]
      exact hbase

theorem cacheGet_wf (c : Cache) (bh h s dscIn : Nat) (nm : Option Nat)
    (imp av : Bool) (al : Option Nat) (hw : wf c) (hn0 : 0 < c.lines.length) :
    wf (cacheGet c bh h s dscIn nm imp av al).state := by
  have hw1 : wf (ageAll c) := ageAll_wf hw
  by_cases hlen : 2 < (ageAll c).lines.length
  · have hw2 : wf (getByHash (ageAll c) h s).1 := getByHash_wf h s hw1
    cases hk : (getByHash (ageAll c) h s).2 with
    | some k =>
      rw [cacheGet_eq_hit c bh h s dscIn nm imp av al k hlen hk]
      exact hw2
    | none =>
      rw [cacheGet_eq_miss c bh h s dscIn nm imp av al hlen hk]
      apply missUpdate_wf _ _ _ _ _ _ _ _ _ _ hw2
      apply getCacheline_lt
      rw [getByHash_length, ageAll_length]
      omega
  · rw [cacheGet_eq_small c bh h s dscIn nm imp av al hlen]
    apply missUpdate_wf _ _ _ _ _ _ _ _ _ _ hw1
    apply getCacheline_lt
    rw [ageAll_length]
    omega

/-- C10: after `Initialize` (success or failure) and after each operation,
    `allmem` equals the sum of the recorded line sizes, and every line with
    a null buffer has recorded size 0. -/
theorem C10_allmem_invariant (n sz lim : Nat) (alloc : Nat → Option Nat)
    (c : Cache) (bh h s dscIn : Nat) (nm : Option Nat) (imp av : Bool)
    (al : Option Nat) (p : Option Nat) (s2 b : Nat)
    (hw : wf c) (hn0 : 0 < c.lines.length) :
    wf (init n sz lim alloc).1
    ∧ wf (cacheGet c bh h s dscIn nm imp av al).state
    ∧ wf (flush c)
    ∧ wf (flushAllBut c b)
    ∧ wf (invalidate c p)
    ∧ wf (reweight c p s2 av)
    ∧ wf (checkmem c) :=
  ⟨init_wf n sz lim alloc,
   cacheGet_wf c bh h s dscIn nm imp av al hw hn0,
   flush_wf hw, flushAllBut_wf b hw, invalidate_wf p hw,
   reweight_wf p s2 av hw, checkmem_wf hw⟩

/-- A concrete well-formed 3-line cache for the C10 witness. -/
def cw10 : Cache := ⟨100, 24, 2, 1,
  [⟨some 1, 16, 0, 5, 100, 0, none⟩,
   ⟨some 2, 8, 0, 6, 200, -3, none⟩,
   ⟨none, 0, 0, sent, sent, 1, none⟩]⟩

/-- Closed instance of `C10_allmem_invariant` at a concrete state and
    concrete operation arguments. -/
theorem C10_witness :
    wf (init 4 8 0 (fun k => some k)).1
    ∧ wf (cacheGet cw10 9 300 32 0 none false false (some 50)).state
    ∧ wf (flush cw10)
    ∧ wf (flushAllBut cw10 5)
    ∧ wf (invalidate cw10 (some 1))
    ∧ wf (reweight cw10 (some 2) 8 false)
    ∧ wf (checkmem cw10) :=
  C10_allmem_invariant 4 8 0 (fun k => some k) cw10 9 300 32 0 none false false
    (some 50) (some 1) 8 5 (by decide) (by decide)
